import Mathlib

/-!
# ECG ingestion: rolling window and BPM estimator

A shallow embedding of `submitEcgData` and `calculateMetrics` of
`src/functions/index.js`. The copy in `src/backend/api/submitEcgData.js` has
the same validation, the same transaction callback and the same
`calculateMetrics`; it differs in the status of the `OPTIONS` answer, in the
body of the 405 answer and in the message of the 500 answer.

Modelling conventions.

* JavaScript values are the inductive type `JsValue`.  Reading a property of
  `undefined` or `null` throws a `TypeError`; on every other value a property
  that is not there reads as `undefined`.
* JavaScript numbers are `JsNum`: `NaN`, the two infinities, and the finite
  numbers, each the rational it denotes.  Comparisons of doubles are
  comparisons of those rationals.  Arithmetic is IEEE-754 binary64: the exact
  result is rounded to the nearest double, ties to the even one
  (`JsNum.ofRat`), in `maxVal * 0.7`, in the difference of the two peak times
  and in the two divisions of the BPM computation.  The sign of zero is not
  modelled; the code divides positive numbers only.
* `parseFloat`, `new Date(..).getTime()`, the clock and the way the database
  renders a committed array on read are library behaviour, not code of the
  repository: they are the fields of `Runtime`, and every theorem holds for
  every runtime.  A time value is an integer of at most 8.64e15 in absolute
  value, as the language fixes it.
-/

deriving instance DecidableEq for Except

namespace EcgFront

/-! ## IEEE-754 rounding -/

/-- The integer nearest to `q`, the even one of the two when `q` lies half
way. -/
def roundHalfEven (q : ℚ) : Int :=
  if q - ⌊q⌋ < 1 / 2 then ⌊q⌋
  else if 1 / 2 < q - ⌊q⌋ then ⌊q⌋ + 1
  else if ⌊q⌋ % 2 = 0 then ⌊q⌋ else ⌊q⌋ + 1

/-- The binary logarithm of `n`, rounded down, computed with `fuel` halvings
at most. -/
def log2Fuel : Nat → Nat → Nat
  | 0, _ => 0
  | fuel + 1, n => if 2 ≤ n then log2Fuel fuel (n / 2) + 1 else 0

/-- The position of the leading bit of `n ≥ 1`. -/
def bitLog (n : Nat) : Nat := log2Fuel n n

/-- The integer `l` with `2 ^ l ≤ x < 2 ^ (l + 1)`, for `x > 0`. -/
def floorLog2 (x : ℚ) : Int :=
  if (2 : ℚ) ^ ((bitLog x.num.toNat : Int) - (bitLog x.den : Int)) ≤ x then
    (bitLog x.num.toNat : Int) - (bitLog x.den : Int)
  else (bitLog x.num.toNat : Int) - (bitLog x.den : Int) - 1

/-- The exponent of the last place of a double of the size of `x > 0`: 52
below the leading bit, and not under -1074 (the subnormal doubles). -/
def ulpExp (x : ℚ) : Int := max (floorLog2 x - 52) (-1074)

/-- The multiple of `2 ^ ulpExp x` nearest to `x > 0`, ties to even: the
double nearest to `x` when it is under `2 ^ 1024`. -/
def roundPos (x : ℚ) : ℚ := (roundHalfEven (x / (2 : ℚ) ^ ulpExp x) : ℚ) * (2 : ℚ) ^ ulpExp x

/-- A positive number `k * 2 ^ e` with `k < 2 ^ 53` and `e ≥ -1074`: a
positive double, when under `2 ^ 1024`. -/
def OnGrid (d : ℚ) : Prop :=
  ∃ (k : Nat) (e : Int), 0 < k ∧ k < 2 ^ 53 ∧ -1074 ≤ e ∧ d = (k : ℚ) * (2 : ℚ) ^ e

/-! ## JavaScript values -/

/-- A JavaScript number: `NaN`, `-Infinity`, a finite number, `Infinity`. -/
inductive JsNum where
  | nan
  | negInf
  | fin (q : ℚ)
  | posInf
deriving DecidableEq

namespace JsNum

/-- The JavaScript comparison `a > b`: false as soon as one side is `NaN`. -/
def gt : JsNum → JsNum → Bool
  | nan, _ => false
  | _, nan => false
  | negInf, _ => false
  | fin _, negInf => true
  | fin a, fin b => decide (b < a)
  | fin _, posInf => false
  | posInf, posInf => false
  | posInf, _ => true

/-- The JavaScript comparison `a < b`. -/
def lt (a b : JsNum) : Bool := gt b a

/-- The double nearest to the non-zero rational `x`, or an infinity when that
double would be `2 ^ 1024` or more in absolute value. -/
def ofRat (x : ℚ) : JsNum :=
  if x = 0 then fin 0
  else if 0 < x then (if roundPos x < 2 ^ 1024 then fin (roundPos x) else posInf)
  else (if roundPos (-x) < 2 ^ 1024 then fin (-roundPos (-x)) else negInf)

/-- The double that the literal `0.7` denotes. -/
def double07 : ℚ := 3152519739159347 / 4503599627370496

/-- The JavaScript product `x * 0.7`. -/
def mul07 : JsNum → JsNum
  | nan => nan
  | negInf => negInf
  | fin q => ofRat (q * double07)
  | posInf => posInf

/-- The JavaScript quotient `a / b`. -/
def div : JsNum → JsNum → JsNum
  | nan, _ => nan
  | _, nan => nan
  | fin a, fin b =>
    if b = 0 then (if a = 0 then nan else if 0 < a then posInf else negInf)
    else ofRat (a / b)
  | fin _, _ => fin 0
  | posInf, fin b => if 0 ≤ b then posInf else negInf
  | negInf, fin b => if 0 ≤ b then negInf else posInf
  | _, _ => nan

end JsNum

/-- A decoded JSON value, or `undefined`. -/
inductive JsValue where
  | undefined
  | null
  | bool (b : Bool)
  | number (x : JsNum)
  | string (s : String)
  | array (items : List JsValue)
  | object (fields : List (String × JsValue))

/-- The only exception the modelled code can raise. -/
inductive JsError where
  | typeError
deriving DecidableEq

namespace JsValue

/-- Property read `v.key` for a key that no prototype defines
(`timestamp`, `ecg_value`): a `TypeError` on `undefined` and `null`, the field
of an object, `undefined` otherwise. -/
def prop (v : JsValue) (key : String) : Except JsError JsValue :=
  match v with
  | undefined => .error .typeError
  | null => .error .typeError
  | object fields => .ok ((fields.lookup key).getD undefined)
  | _ => .ok undefined

/-- JavaScript truthiness (`!v` is its negation). -/
def truthy : JsValue → Bool
  | undefined => false
  | null => false
  | bool b => b
  | number .nan => false
  | number (.fin q) => decide (q ≠ 0)
  | number _ => true
  | string s => decide (s ≠ "")
  | array _ => true
  | object _ => true

/-- The test `v === undefined`. -/
def isUndefined : JsValue → Bool
  | undefined => true
  | _ => false

end JsValue

/-! ## Library behaviour and stored data -/

/-- What `snapshot.val()` of the `ecg_latest` record can be: `null`, an array,
or (the backend quirk) an index-keyed object, given by its values in
`Object.values` order. -/
inductive WindowData where
  | absent
  | array (items : List JsValue)
  | mapping (values : List JsValue)

/-- The JavaScript library and the database client, as far as the code uses
them. `dateGetTime v` is `new Date(v).getTime()`: an exception, `NaN`
(`none`) or a time value in milliseconds, which is at most 8.64e15 in
absolute value (`timeRange`). `snapshotVal xs` is what the database returns
for the record after the array `xs` was committed. `now` is
`new Date().toISOString()`. -/
structure Runtime where
  parseFloat : JsValue → JsNum
  dateGetTime : JsValue → Except JsError (Option Int)
  snapshotVal : List JsValue → WindowData
  now : String
  timeRange : ∀ v t, dateGetTime v = .ok (some t) → t.natAbs ≤ 8640000000000000

/-! ## The rolling window -/

/-- The array the transaction callback works on: `[]` for a falsy record,
the record itself when it is an array, `Object.values` of it otherwise. -/
def currentArray : WindowData → List JsValue
  | .absent => []
  | .array items => items
  | .mapping values => values

/-- The update function passed to `db.ref("ecg_latest").transaction`. -/
def transactionUpdate (points : List JsValue) (currentData : WindowData) : List JsValue :=
  let newArray := currentArray currentData ++ points
  if newArray.length > 300 then newArray.drop (newArray.length - 300) else newArray

/-! ## The BPM estimator -/

/-- An accepted peak: `{ index: i, time: dataArray[i].timestamp }`. -/
structure Peak where
  index : Nat
  time : JsValue

/-- The result of `calculateMetrics`. -/
structure Metrics where
  bpm : Int
  status : String
deriving DecidableEq

/-- The expression `parseFloat(dataArray[i].ecg_value)`. -/
def ecgAt (rt : Runtime) (dataArray : List JsValue) (i : Nat) : Except JsError JsNum := do
  let v ← (dataArray.getD i .undefined).prop "ecg_value"
  pure (rt.parseFloat v)

/-- The `forEach` that computes `maxVal`, started at `-Infinity`. -/
def findMax (rt : Runtime) (dataArray : List JsValue) : Except JsError JsNum :=
  dataArray.foldlM
    (fun maxVal d => do
      let v ← d.prop "ecg_value"
      let val := rt.parseFloat v
      pure (if val.gt maxVal then val else maxVal))
    JsNum.negInf

/-- One iteration of the peak loop, at index `i`. -/
def peakBody (rt : Runtime) (dataArray : List JsValue) (threshold : JsNum)
    (peaks : List Peak) (i : Nat) : Except JsError (List Peak) := do
  let prev ← ecgAt rt dataArray (i - 1)
  let curr ← ecgAt rt dataArray i
  let next ← ecgAt rt dataArray (i + 1)
  if curr.gt threshold && curr.gt prev && curr.gt next then
    if peaks.length = 0 || decide (i - (peaks.getLast?.map Peak.index).getD 0 > 50) then
      let t ← (dataArray.getD i .undefined).prop "timestamp"
      pure (peaks ++ [⟨i, t⟩])
    else
      pure peaks
  else
    pure peaks

/-- The peak loop `for (let i = 1; i < dataArray.length - 1; i++)`. -/
def detectPeaks (rt : Runtime) (dataArray : List JsValue) (threshold : JsNum) :
    Except JsError (List Peak) :=
  (List.range' 1 (dataArray.length - 2)).foldlM (peakBody rt dataArray threshold) []

/-- The nearest integer, halves going up. -/
def roundHalfUp (q : ℚ) : Int := ⌊q + 1 / 2⌋

/-- The JavaScript `Math.round` of a finite number: the nearest integer,
halves going up. `Math.round(Infinity)` is `Infinity`; here 0 stands for it,
and `bpmQuotient` is infinite only when the average interval has underflowed
to zero, which no array of fewer than `2 ^ 32` peaks brings about
(`bpmQuotient_finite`). -/
def mathRound : JsNum → Int
  | .fin q => roundHalfUp q
  | _ => 0

/-- The difference `lastPeak - firstPeak` of two time values. -/
def durationOf (firstPeak lastPeak : Int) : JsNum :=
  JsNum.ofRat ((lastPeak - firstPeak : Int) : ℚ)

/-- The quotient `60000 / avgInterval`, with
`avgInterval = durationMs / (peaks.length - 1)`. -/
def bpmQuotient (durationMs : JsNum) (intervals : Nat) : JsNum :=
  JsNum.div (.fin 60000) (durationMs.div (.fin (intervals : ℚ)))

/-- The BPM computation from the accepted peaks, `try`/`catch` included: an
exception of the date conversion and a `NaN` time both leave `bpm` at 0. -/
def computeBpm (rt : Runtime) (peaks : List Peak) : Int :=
  if peaks.length > 1 then
    match peaks.head?, peaks.getLast? with
    | some first, some last =>
      match rt.dateGetTime first.time, rt.dateGetTime last.time with
      | .ok (some firstPeak), .ok (some lastPeak) =>
        let durationMs := durationOf firstPeak lastPeak
        if durationMs.gt (.fin 0) then
          mathRound (bpmQuotient durationMs (peaks.length - 1))
        else 0
      | _, _ => 0
    | _, _ => 0
  else 0

/-- The status expression of the returned object. -/
def statusOf (bpm : Int) : String :=
  if bpm > 100 then "tachycardia"
  else if bpm < 60 ∧ bpm > 0 then "bradycardia"
  else "normal"

/-- The expression `Array.isArray(data) ? data : Object.values(data)` of
`calculateMetrics`, reached only with a truthy `data`. -/
def dataArrayOf : WindowData → List JsValue
  | .absent => []
  | .array items => items
  | .mapping values => values

/-- The function `calculateMetrics(data)`. The guard reads `data.length`
before the record is normalised, so it is `undefined` on an index-keyed
object and `undefined < 10` is false. -/
def calculateMetrics (rt : Runtime) (data : WindowData) : Except JsError Metrics :=
  let tooShort : Bool :=
    match data with
    | .absent => true
    | .array items => decide (items.length < 10)
    | .mapping _ => false
  if tooShort then .ok ⟨0, "insufficient_data"⟩
  else do
    let dataArray := dataArrayOf data
    let maxVal ← findMax rt dataArray
    let threshold := maxVal.mul07
    let peaks ← detectPeaks rt dataArray threshold
    let bpm := computeBpm rt peaks
    pure ⟨bpm, statusOf bpm⟩

/-! ## The ingestion handler -/

/-- The record written to `ecg_metrics`. -/
structure MetricsRecord where
  timestamp : String
  bpm : Int
  status : String
deriving DecidableEq

/-- The two records of the database. -/
structure Store where
  ecg_latest : WindowData
  ecg_metrics : Option MetricsRecord

/-- An HTTP request, as far as the handler reads it. -/
structure Request where
  method : String
  body : JsValue

/-- A response body. -/
inductive Body where
  | text (s : String)
  | error (msg : String)
  | success (stored_total : Option Nat) (derived : Metrics)
deriving DecidableEq

/-- An HTTP response. -/
structure Response where
  status : Nat
  body : Body
deriving DecidableEq

/-- The normalisation of the request body into `points`. -/
def pointsOf (data : JsValue) : List JsValue :=
  match data with
  | .array items => items
  | .object _ => [data]
  | _ => []

/-- The test `!points[0].timestamp || points[0].ecg_value === undefined`. -/
def firstPointInvalid (points : List JsValue) : Except JsError Bool := do
  let p := points.getD 0 .undefined
  let ts ← p.prop "timestamp"
  if !ts.truthy then pure true
  else do
    let ev ← p.prop "ecg_value"
    pure ev.isUndefined

/-- The expression `latestData ? latestData.length : 0`; `length` is
`undefined` on an index-keyed object. -/
def storedTotal : WindowData → Option Nat
  | .absent => some 0
  | .array items => some items.length
  | .mapping _ => none

/-- The expression `latestData || points`. -/
def latestOrPoints (latestData : WindowData) (points : List JsValue) : WindowData :=
  match latestData with
  | .absent => .array points
  | d => d

/-- The response to a first point without the required fields. -/
def invalidFormat : Response :=
  ⟨400, .error "Invalid data format. Expected \x7btimestamp, ecg_value, status\x7d"⟩

/-- The response of the `catch` block. -/
def internalError : Response := ⟨500, .error "Internal Server Error"⟩

/-- The handler `submitEcgData` of `src/functions/index.js`, as a function of
the database state and the request; it returns the response and the
database state it leaves. The transaction is taken to commit. -/
def submitEcgData (rt : Runtime) (store : Store) (req : Request) : Response × Store :=
  if req.method = "OPTIONS" then (⟨204, .text ""⟩, store)
  else if req.method ≠ "POST" then (⟨405, .text "Method Not Allowed"⟩, store)
  else
    let points := pointsOf req.body
    if points.length = 0 then (⟨400, .error "No data provided"⟩, store)
    else
      match firstPointInvalid points with
      | .error _ => (internalError, store)
      | .ok true => (invalidFormat, store)
      | .ok false =>
        let latestData := rt.snapshotVal (transactionUpdate points store.ecg_latest)
        let store1 : Store := { store with ecg_latest := latestData }
        match calculateMetrics rt (latestOrPoints latestData points) with
        | .error _ => (internalError, store1)
        | .ok derived =>
          (⟨200, .success (storedTotal latestData) derived⟩,
            { store1 with ecg_metrics := some ⟨rt.now, derived.bpm, derived.status⟩ })

/-! ## Windows of samples -/

/-- A sample: an object with the fields `timestamp`, `ecg_value` and
`status`, each an arbitrary value (`undefined` for a field that is not
there). -/
structure Sample where
  timestamp : JsValue
  ecg_value : JsValue
  status : JsValue

/-- The sample as a JavaScript object. -/
def Sample.toJs (s : Sample) : JsValue :=
  .object [("timestamp", s.timestamp), ("ecg_value", s.ecg_value), ("status", s.status)]

/-- The window as the array of its samples. -/
def windowArray (w : List Sample) : List JsValue := w.map Sample.toJs

/-- The sample at index `i`; the placeholder outside the window is never
read by the scan. -/
def sampleAt (w : List Sample) (i : Nat) : Sample :=
  w.getD i ⟨.undefined, .undefined, .undefined⟩

/-- The parsed value `parseFloat(w[i].ecg_value)`. -/
def ecgOf (rt : Runtime) (w : List Sample) (i : Nat) : JsNum :=
  rt.parseFloat (sampleAt w i).ecg_value

/-- The maximum of the parsed values of the window, from `-Infinity`. -/
def maxOf (rt : Runtime) (w : List Sample) : JsNum :=
  w.foldl (fun m s => if (rt.parseFloat s.ecg_value).gt m then rt.parseFloat s.ecg_value else m)
    JsNum.negInf

/-- The sample at `i` is above `threshold` and strictly above both
neighbours. -/
def isCrest (rt : Runtime) (w : List Sample) (threshold : JsNum) (i : Nat) : Bool :=
  (ecgOf rt w i).gt threshold && (ecgOf rt w i).gt (ecgOf rt w (i - 1)) &&
    (ecgOf rt w i).gt (ecgOf rt w (i + 1))

/-- The peak candidates of a window: the interior indices whose sample is
strictly greater than both neighbours and above 0.7 times the window
maximum, in increasing order. -/
def candidates (rt : Runtime) (w : List Sample) : List Nat :=
  (List.range' 1 (w.length - 2)).filter (isCrest rt w (maxOf rt w).mul07)

/-- The peak recorded for index `i` of a window. -/
def peakAt (w : List Sample) (i : Nat) : Peak := ⟨i, (sampleAt w i).timestamp⟩

/-- The time value of the sample at index `i`. -/
def timeAt (rt : Runtime) (w : List Sample) (i : Nat) : Except JsError (Option Int) :=
  rt.dateGetTime (sampleAt w i).timestamp

/-- One step of the refractory scan over a window of samples. -/
def acceptStep (w : List Sample) (crest : Nat → Bool) (peaks : List Peak) (i : Nat) : List Peak :=
  if crest i then
    if peaks.length = 0 || decide (i - (peaks.getLast?.map Peak.index).getD 0 > 50) then
      peaks ++ [peakAt w i]
    else peaks
  else peaks

/-- The accepted peaks of a window of samples. -/
def acceptedPeaks (rt : Runtime) (w : List Sample) : List Peak :=
  (List.range' 1 (w.length - 2)).foldl (acceptStep w (isCrest rt w (maxOf rt w).mul07)) []

/-- The distance test of the scan, on indices: `b` lies more than 50 after `a`. -/
def farApart (a b : Nat) : Prop := 50 < b - a

instance farApartDecidable (a b : Nat) : Decidable (farApart a b) :=
  inferInstanceAs (Decidable (50 < b - a))

/-- The crest `b` comes `P` milliseconds after the crest `a`, both with a
valid time value. -/
def stepsBy (rt : Runtime) (w : List Sample) (P : Int) (a b : Nat) : Prop :=
  ∃ t : Int, timeAt rt w a = .ok (some t) ∧ timeAt rt w b = .ok (some (t + P))

/-- The timestamp of the sample parses to a valid instant. -/
def hasValidTime (rt : Runtime) (s : Sample) : Bool :=
  match rt.dateGetTime s.timestamp with
  | .ok (some _) => true
  | _ => false

/-! ## A concrete runtime and concrete windows -/

/-- The value of a decimal digit. -/
def digitVal (c : Char) : Option Nat :=
  if c.isDigit then some (c.toNat - 48) else none

/-- The time value of a timestamp of the form `1970-01-01T00:00:SS.mmmZ`
(`NaN` for any other string). -/
def isoTime (s : String) : Option Int :=
  let cs := s.data
  if cs.length = 24 ∧ cs.take 17 = "1970-01-01T00:00:".data ∧ cs.getD 19 'x' = '.' ∧
      cs.getD 23 'x' = 'Z' then do
    let s1 ← digitVal (cs.getD 17 'x')
    let s2 ← digitVal (cs.getD 18 'x')
    let a ← digitVal (cs.getD 20 'x')
    let b ← digitVal (cs.getD 21 'x')
    let c ← digitVal (cs.getD 22 'x')
    some (((s1 * 10 + s2) * 1000 + a * 100 + b * 10 + c : Nat) : Int)
  else none

/-- The ISO-8601 timestamp of the instant `ms` milliseconds after the epoch,
for `ms < 60000`. -/
def isoStamp (ms : Nat) : String :=
  String.mk ("1970-01-01T00:00:".data ++
    [Char.ofNat (48 + ms / 10000 % 10), Char.ofNat (48 + ms / 1000 % 10), '.',
      Char.ofNat (48 + ms / 100 % 10), Char.ofNat (48 + ms / 10 % 10),
      Char.ofNat (48 + ms % 10), 'Z'])

/-- The clipping of a time value: `NaN` outside of ±8.64e15. -/
def timeClip (t : Option Int) : Option Int :=
  match t with
  | some t => if t.natAbs ≤ 8640000000000000 then some t else none
  | none => none

/-- A runtime for the examples. It agrees with JavaScript on the values the
examples use: `parseFloat` of a number is the number, `new Date(s).getTime()`
of a timestamp `1970-01-01T00:00:SS.mmmZ` is its offset in milliseconds and
`NaN` for a string that is no date; a committed non-empty array is read back
as that array. -/
def exampleRuntime : Runtime where
  parseFloat := fun v => match v with
    | .number x => x
    | _ => .nan
  dateGetTime := fun v => match v with
    | .string s => .ok (timeClip (isoTime s))
    | _ => .ok none
  snapshotVal := fun xs => if xs.isEmpty then .absent else .array xs
  now := "1970-01-01T00:01:00.000Z"
  timeRange := by
    intro v t h
    cases v <;> simp only [Except.ok.injEq, reduceCtorEq] at h
    rename_i s
    unfold timeClip at h
    split at h
    · split at h
      · rename_i t0 _ hle
        simp only [Option.some.injEq] at h
        rw [← h]
        exact hle
      · simp at h
    · simp at h

/-- The sample `{timestamp: <ms after the epoch>, ecg_value: v, status: "normal"}`,
with `v` the double that the decimal numeral denotes. -/
def exampleSample (ms : Nat) (v : ℚ) : Sample :=
  ⟨.string (isoStamp ms), .number (JsNum.ofRat v), .string "normal"⟩

/-- Twelve samples 100 ms apart, of value 0.1 except 0.9 at indices 2 and 8:
two clear peaks, 600 ms apart. -/
def twelveSamples : List Sample :=
  (List.range 12).map fun i => exampleSample (100 * i) (if i = 2 ∨ i = 8 then 9 / 10 else 1 / 10)

/-- Fifty-five samples 4 ms apart, of value 0.1 except 0.9 at indices 1, 27
and 53: consecutive crests 26 indices apart. -/
def closeCrests : List Sample :=
  (List.range 55).map fun i =>
    exampleSample (4 * i) (if i = 1 ∨ i = 27 ∨ i = 53 then 9 / 10 else 1 / 10)

/-- Fifty-five samples 4 ms apart, of value 0.1 except 0.9 at indices 1 and
53: two crests 52 indices and 208 ms apart. -/
def twoCrests : List Sample :=
  (List.range 55).map fun i => exampleSample (4 * i) (if i = 1 ∨ i = 53 then 9 / 10 else 1 / 10)

/-- The window `twoCrests` with the timestamp of the first crest replaced by
a string that is no date. -/
def twoCrestsBadTime : List Sample :=
  (List.range 55).map fun i =>
    if i = 1 then ⟨.string "not-a-date", .number (JsNum.ofRat (9 / 10)), .string "normal"⟩
    else exampleSample (4 * i) (if i = 53 then 9 / 10 else 1 / 10)

/-- Seventy samples 4 ms apart, of value 0.1 except 0.9 at indices 10, 30
and 60: the crests span 50 indices. -/
def nearCrests : List Sample :=
  (List.range 70).map fun i =>
    exampleSample (4 * i) (if i = 10 ∨ i = 30 ∨ i = 60 then 9 / 10 else 1 / 10)

/-- The window `result` is the trailing slice of `w ++ b`: its last
`min 300 (len w + len b)` elements, in their order. -/
def TrailingSlice (result w b : List JsValue) : Prop :=
  result = (w ++ b).drop ((w ++ b).length - min 300 (w.length + b.length)) ∧
  result <:+ w ++ b ∧
  result.length = min 300 (w.length + b.length) ∧
  result.length ≤ 300

/-- Fifty-five samples 4 ms apart, of value 0.1 except 1.3 at index 1 and 0.91
at index 53: the second crest is above the double `1.3 * 0.7`, which is
0.9099999999999999, and under the exact product 0.91. -/
def boundaryCrests : List Sample :=
  (List.range 55).map fun i =>
    exampleSample (4 * i) (if i = 1 then 13 / 10 else if i = 53 then 91 / 100 else 1 / 10)

/-! ## Concurrent appends -/

/-- Modelled from the spec: the transaction primitive of the key-value store,
which is not code of the repository. The spec (4.2, 9) grants that the
read-transform-write of one `append` call is atomic with respect to the
others, as under a mutex or a compare-and-retry loop. A state of the system
is the window record together with the batches of the calls that have not
committed yet. -/
structure Pending where
  record : WindowData
  waiting : List (List JsValue)

/-- Modelled from the spec: one step of the store under concurrent calls.
Any one of the waiting calls commits: the update function of the code is
applied to the record as it stands, the result is written back, and the call
leaves the waiting list. -/
inductive Commit : Pending → Pending → Prop where
  | step (record : WindowData) (waiting : List (List JsValue)) (i : Nat)
      (h : i < waiting.length) :
      Commit ⟨record, waiting⟩
        ⟨.array (transactionUpdate (waiting.get ⟨i, h⟩) record), waiting.eraseIdx i⟩

/-- Modelled from the spec: an interleaving of the calls is a sequence of
commit steps. -/
def Interleaving : Pending → Pending → Prop := Relation.ReflTransGen Commit

/-- The batch of the five samples with values `n`, ..., `n + 4`. -/
def exampleBatch (n : Nat) : List JsValue :=
  (List.range 5).map fun i => (exampleSample (4 * (n + i)) (n + i : Nat)).toJs

/-! ## Rounding to the nearest double -/

theorem log2Fuel_spec (fuel n : Nat) (h1 : 1 ≤ n) (h2 : n ≤ fuel) :
    2 ^ log2Fuel fuel n ≤ n ∧ n < 2 ^ (log2Fuel fuel n + 1) := by
  induction fuel generalizing n with
  | zero => omega
  | succ fuel ih =>
    unfold log2Fuel
    split
    · rename_i h
      have := ih (n / 2) (by omega) (by omega)
      rw [pow_succ, pow_succ _ (log2Fuel fuel (n / 2) + 1)]
      rw [pow_succ] at this
      omega
    · have : n = 1 := by omega
      rw [this]
      simp

theorem bitLog_spec (n : Nat) (h : 1 ≤ n) : 2 ^ bitLog n ≤ n ∧ n < 2 ^ (bitLog n + 1) :=
  log2Fuel_spec n n h (le_refl n)

theorem floorLog2_spec (x : ℚ) (hx : 0 < x) :
    (2 : ℚ) ^ floorLog2 x ≤ x ∧ x < (2 : ℚ) ^ (floorLog2 x + 1) := by
  have hnum : 0 < x.num := Rat.num_pos.mpr hx
  have ha1 : 1 ≤ x.num.toNat := by omega
  have hb1 : 1 ≤ x.den := x.den_pos
  obtain ⟨ha, ha'⟩ := bitLog_spec _ ha1
  obtain ⟨hb, hb'⟩ := bitLog_spec _ hb1
  have hxe : x = (x.num.toNat : ℚ) / (x.den : ℚ) := by
    have h1 : ((x.num.toNat : ℤ) : ℚ) = (x.num : ℚ) := by
      rw [Int.toNat_of_nonneg hnum.le]
    have h2 : ((x.num.toNat : ℕ) : ℚ) = ((x.num.toNat : ℤ) : ℚ) := by push_cast; rfl
    rw [h2, h1]
    exact (Rat.num_div_den x).symm
  have hbpos : (0 : ℚ) < (x.den : ℚ) := by exact_mod_cast hb1
  have haQ : ((2 : ℚ) ^ bitLog x.num.toNat) ≤ (x.num.toNat : ℚ) := by exact_mod_cast ha
  have haQ' : (x.num.toNat : ℚ) < ((2 : ℚ) ^ (bitLog x.num.toNat + 1)) := by exact_mod_cast ha'
  have hbQ : ((2 : ℚ) ^ bitLog x.den) ≤ (x.den : ℚ) := by exact_mod_cast hb
  have hbQ' : (x.den : ℚ) < ((2 : ℚ) ^ (bitLog x.den + 1)) := by exact_mod_cast hb'
  have h2 : (2 : ℚ) ≠ 0 := by norm_num
  have hp : ∀ n : ℕ, (0 : ℚ) < (2 : ℚ) ^ n := fun n => by positivity
  have hup : x < (2 : ℚ) ^ ((bitLog x.num.toNat : Int) - (bitLog x.den : Int) + 1) := by
    rw [show ((bitLog x.num.toNat : Int) - (bitLog x.den : Int) + 1)
        = ((bitLog x.num.toNat + 1 : ℕ) : Int) - ((bitLog x.den : ℕ) : Int) by push_cast; ring]
    rw [zpow_sub₀ h2, zpow_natCast, zpow_natCast]
    refine lt_of_eq_of_lt hxe ?_
    rw [div_lt_div_iff hbpos (hp _)]
    calc (x.num.toNat : ℚ) * 2 ^ bitLog x.den
        ≤ (x.num.toNat : ℚ) * x.den := by
          apply mul_le_mul_of_nonneg_left hbQ
          positivity
      _ < 2 ^ (bitLog x.num.toNat + 1) * x.den := by
          apply mul_lt_mul_of_pos_right haQ' hbpos
  have hlow : (2 : ℚ) ^ ((bitLog x.num.toNat : Int) - (bitLog x.den : Int) - 1) ≤ x := by
    rw [show ((bitLog x.num.toNat : Int) - (bitLog x.den : Int) - 1)
        = ((bitLog x.num.toNat : ℕ) : Int) - ((bitLog x.den + 1 : ℕ) : Int) by push_cast; ring]
    rw [zpow_sub₀ h2, zpow_natCast, zpow_natCast]
    refine le_of_le_of_eq ?_ hxe.symm
    rw [div_le_div_iff (hp _) hbpos]
    calc (2 : ℚ) ^ bitLog x.num.toNat * x.den
        ≤ (x.num.toNat : ℚ) * x.den := by
          apply mul_le_mul_of_nonneg_right haQ hbpos.le
      _ ≤ (x.num.toNat : ℚ) * 2 ^ (bitLog x.den + 1) := by
          apply mul_le_mul_of_nonneg_left hbQ'.le
          positivity
  unfold floorLog2
  split
  · rename_i h
    exact ⟨h, hup⟩
  · rename_i h
    refine ⟨hlow, ?_⟩
    rw [sub_add_cancel]
    exact lt_of_not_le h

theorem floorLog2_lt (x : ℚ) (hx : 0 < x) (n : Int) (h : x < (2 : ℚ) ^ n) : floorLog2 x < n := by
  have := (floorLog2_spec x hx).1
  exact (zpow_lt_zpow_iff_right₀ (by norm_num : (1 : ℚ) < 2)).mp (lt_of_le_of_lt this h)

theorem le_floorLog2 (x : ℚ) (hx : 0 < x) (n : Int) (h : (2 : ℚ) ^ n ≤ x) : n ≤ floorLog2 x := by
  have := (floorLog2_spec x hx).2
  have h3 := (zpow_lt_zpow_iff_right₀ (by norm_num : (1 : ℚ) < 2)).mp (lt_of_le_of_lt h this)
  omega

theorem floorLog2_mono (x y : ℚ) (hx : 0 < x) (h : x ≤ y) : floorLog2 x ≤ floorLog2 y :=
  le_floorLog2 y (lt_of_lt_of_le hx h) _ (le_trans (floorLog2_spec x hx).1 h)

theorem ulpExp_mono (x y : ℚ) (hx : 0 < x) (h : x ≤ y) : ulpExp x ≤ ulpExp y := by
  have := floorLog2_mono x y hx h
  unfold ulpExp
  omega

theorem roundHalfEven_le (q : ℚ) (n : Int) (h : q ≤ n) : roundHalfEven q ≤ n := by
  have hf : ⌊q⌋ ≤ n := by
    have := le_trans (Int.floor_le q) h
    exact_mod_cast this
  have hstep : (1 : ℚ) / 2 ≤ q - ⌊q⌋ → ⌊q⌋ + 1 ≤ n := by
    intro hfr
    by_contra hcon
    have heq : ⌊q⌋ = n := by omega
    rw [heq] at hfr
    linarith
  unfold roundHalfEven
  split
  · exact hf
  · rename_i h1
    split
    · exact hstep (le_of_not_lt h1)
    · split
      · exact hf
      · exact hstep (le_of_not_lt h1)

theorem le_roundHalfEven (q : ℚ) (n : Int) (h : (n : ℚ) ≤ q) : n ≤ roundHalfEven q := by
  have hf : n ≤ ⌊q⌋ := Int.le_floor.mpr h
  unfold roundHalfEven
  split
  · exact hf
  · split
    · omega
    · split <;> omega

theorem two_zpow_pos (e : Int) : (0 : ℚ) < (2 : ℚ) ^ e := zpow_pos (by norm_num) e

theorem OnGrid.pos {d : ℚ} (h : OnGrid d) : 0 < d := by
  obtain ⟨k, e, hk, -, -, rfl⟩ := h
  have := two_zpow_pos e
  have hk' : (0 : ℚ) < k := by exact_mod_cast hk
  positivity

theorem ulpExp_le_of_grid (k : Nat) (e : Int) (hk : 0 < k) (hk2 : k < 2 ^ 53) (he : -1074 ≤ e) :
    ulpExp ((k : ℚ) * (2 : ℚ) ^ e) ≤ e := by
  have hpos : (0 : ℚ) < (k : ℚ) * (2 : ℚ) ^ e := by
    have := two_zpow_pos e
    have hk' : (0 : ℚ) < k := by exact_mod_cast hk
    positivity
  have hlt : (k : ℚ) * (2 : ℚ) ^ e < (2 : ℚ) ^ (53 + e) := by
    rw [zpow_add₀ (by norm_num : (2 : ℚ) ≠ 0)]
    apply mul_lt_mul_of_pos_right _ (two_zpow_pos e)
    have h53 : (2 : ℚ) ^ (53 : Int) = ((2 ^ 53 : ℕ) : ℚ) := by norm_num
    rw [h53]
    exact_mod_cast hk2
  have := floorLog2_lt _ hpos _ hlt
  unfold ulpExp
  omega

/-- A grid number is an integer multiple of every `2 ^ e0` with `e0` at most
its own exponent. -/
theorem grid_div_int (k : Nat) (e e0 : Int) (h : e0 ≤ e) :
    (k : ℚ) * (2 : ℚ) ^ e / (2 : ℚ) ^ e0 = ((k * 2 ^ (e - e0).toNat : Nat) : Int) := by
  have h2 : (2 : ℚ) ≠ 0 := by norm_num
  have hn : ((e - e0).toNat : Int) = e - e0 := Int.toNat_of_nonneg (by omega)
  generalize (e - e0).toNat = n at hn ⊢
  rw [mul_div_assoc, ← zpow_sub₀ h2, ← hn, zpow_natCast]
  push_cast
  rfl

theorem roundPos_le_grid (x d : ℚ) (hx : 0 < x) (hd : OnGrid d) (h : x ≤ d) : roundPos x ≤ d := by
  obtain ⟨k, e, hk, hk2, he, rfl⟩ := hd
  have he0 : ulpExp x ≤ e := le_trans (ulpExp_mono x _ hx h) (ulpExp_le_of_grid k e hk hk2 he)
  have hint := grid_div_int k e (ulpExp x) he0
  have hp := two_zpow_pos (ulpExp x)
  have hle : x / (2 : ℚ) ^ ulpExp x ≤ ((k * 2 ^ (e - ulpExp x).toNat : Nat) : Int) := by
    rw [← hint]
    exact div_le_div_of_nonneg_right h hp.le
  have hr := roundHalfEven_le _ _ hle
  have hr' : (roundHalfEven (x / (2 : ℚ) ^ ulpExp x) : ℚ)
      ≤ (((k * 2 ^ (e - ulpExp x).toNat : Nat) : Int) : ℚ) := by exact_mod_cast hr
  unfold roundPos
  calc (roundHalfEven (x / (2 : ℚ) ^ ulpExp x) : ℚ) * (2 : ℚ) ^ ulpExp x
      ≤ (((k * 2 ^ (e - ulpExp x).toNat : Nat) : Int) : ℚ) * (2 : ℚ) ^ ulpExp x :=
        mul_le_mul_of_nonneg_right hr' hp.le
    _ = (k : ℚ) * (2 : ℚ) ^ e := by
        rw [← hint]
        field_simp

theorem grid_le_roundPos (x d : ℚ) (hd : OnGrid d) (h : d ≤ x) : d ≤ roundPos x := by
  have hdpos := hd.pos
  have hx : 0 < x := lt_of_lt_of_le hdpos h
  obtain ⟨k, e, hk, hk2, he, rfl⟩ := hd
  have hp := two_zpow_pos (ulpExp x)
  by_cases hcase : ulpExp x ≤ e
  · have hint := grid_div_int k e (ulpExp x) hcase
    have hle : ((((k * 2 ^ (e - ulpExp x).toNat : Nat) : Int)) : ℚ) ≤ x / (2 : ℚ) ^ ulpExp x := by
      rw [← hint]
      exact div_le_div_of_nonneg_right h hp.le
    have hr := le_roundHalfEven _ _ hle
    have hr' : (((k * 2 ^ (e - ulpExp x).toNat : Nat) : Int) : ℚ)
        ≤ (roundHalfEven (x / (2 : ℚ) ^ ulpExp x) : ℚ) := by exact_mod_cast hr
    unfold roundPos
    calc (k : ℚ) * (2 : ℚ) ^ e
        = (((k * 2 ^ (e - ulpExp x).toNat : Nat) : Int) : ℚ) * (2 : ℚ) ^ ulpExp x := by
          rw [← hint]
          field_simp
      _ ≤ (roundHalfEven (x / (2 : ℚ) ^ ulpExp x) : ℚ) * (2 : ℚ) ^ ulpExp x :=
          mul_le_mul_of_nonneg_right hr' hp.le
  · have hex : ulpExp x = floorLog2 x - 52 := by
      unfold ulpExp at hcase ⊢
      omega
    have h2 : (2 : ℚ) ≠ 0 := by norm_num
    have hspec := (floorLog2_spec x hx).1
    have hle : (((2 ^ 52 : Nat) : Int) : ℚ) ≤ x / (2 : ℚ) ^ ulpExp x := by
      rw [le_div_iff₀ hp, hex]
      have : (((2 ^ 52 : Nat) : Int) : ℚ) = (2 : ℚ) ^ (52 : Int) := by norm_num
      rw [this, ← zpow_add₀ h2]
      simpa using hspec
    have hr := le_roundHalfEven _ _ hle
    have hr' : (((2 ^ 52 : Nat) : Int) : ℚ) ≤ (roundHalfEven (x / (2 : ℚ) ^ ulpExp x) : ℚ) := by
      exact_mod_cast hr
    have hk' : (k : ℚ) ≤ (2 : ℚ) ^ (53 : Int) := by
      have h53 : (2 : ℚ) ^ (53 : Int) = ((2 ^ 53 : ℕ) : ℚ) := by norm_num
      rw [h53]
      exact_mod_cast hk2.le
    unfold roundPos
    calc (k : ℚ) * (2 : ℚ) ^ e
        ≤ (2 : ℚ) ^ (53 : Int) * (2 : ℚ) ^ e := mul_le_mul_of_nonneg_right hk' (two_zpow_pos e).le
      _ = (2 : ℚ) ^ (53 + e) := by rw [zpow_add₀ h2]
      _ ≤ (2 : ℚ) ^ (52 + ulpExp x) := zpow_le_of_le (by norm_num) (by omega)
      _ = (((2 ^ 52 : Nat) : Int) : ℚ) * (2 : ℚ) ^ ulpExp x := by
          rw [zpow_add₀ h2]
          norm_num
      _ ≤ (roundHalfEven (x / (2 : ℚ) ^ ulpExp x) : ℚ) * (2 : ℚ) ^ ulpExp x :=
          mul_le_mul_of_nonneg_right hr' hp.le

theorem roundPos_grid (d : ℚ) (hd : OnGrid d) : roundPos d = d :=
  le_antisymm (roundPos_le_grid d d hd.pos hd (le_refl d)) (grid_le_roundPos d d hd (le_refl d))

theorem roundPos_nonneg (x : ℚ) (hx : 0 < x) : 0 ≤ roundPos x := by
  have hp := two_zpow_pos (ulpExp x)
  have : (0 : Int) ≤ roundHalfEven (x / (2 : ℚ) ^ ulpExp x) :=
    le_roundHalfEven _ 0 (by simp; positivity)
  have h' : (0 : ℚ) ≤ (roundHalfEven (x / (2 : ℚ) ^ ulpExp x) : ℚ) := by exact_mod_cast this
  unfold roundPos
  positivity

theorem onGrid_of (d : ℚ) (k : Nat) (e : Int) (hk : 0 < k) (hk2 : k < 2 ^ 53) (he : -1074 ≤ e)
    (h : d = (k : ℚ) * (2 : ℚ) ^ e) : OnGrid d := ⟨k, e, hk, hk2, he, h⟩

theorem roundHalfUp_eq (q : ℚ) (n : Int) (h1 : (n : ℚ) - 1 / 2 ≤ q) (h2 : q < (n : ℚ) + 1 / 2) :
    roundHalfUp q = n := by
  unfold roundHalfUp
  rw [Int.floor_eq_iff]
  constructor <;> linarith

/-- The rounded quotient `60000 / avg` has the same nearest integer as
`60000 / P` when `avg` is `P`, or when `P` is odd and `avg` is within
`2 ^ -36` of it. -/
theorem roundHalfUp_quotient (P : Int) (avg : ℚ) (hP1 : 1 ≤ P) (hP2 : P ≤ 120000)
    (h : avg = P ∨ (P % 2 = 1 ∧ (P : ℚ) - 1 / 2 ^ 36 ≤ avg ∧ avg ≤ (P : ℚ) + 1 / 2 ^ 36)) :
    roundHalfUp (roundPos (60000 / avg)) = roundHalfUp (60000 / (P : ℚ)) := by
  have hPq : (1 : ℚ) ≤ P := by exact_mod_cast hP1
  have hPq2 : (P : ℚ) ≤ 120000 := by exact_mod_cast hP2
  have hPpos : (0 : ℚ) < P := by linarith
  -- the target integer
  obtain ⟨n, hn⟩ : ∃ n, roundHalfUp (60000 / (P : ℚ)) = n := ⟨_, rfl⟩
  have hfl : (n : ℚ) ≤ 60000 / (P : ℚ) + 1 / 2 ∧ 60000 / (P : ℚ) + 1 / 2 < (n : ℚ) + 1 := by
    have := Int.floor_eq_iff.mp hn
    exact this
  -- integer forms: (2n - 1) P ≤ 120000 < (2n + 1) P
  have hlo : (2 * n - 1) * P ≤ 120000 := by
    have h1 : ((2 * n - 1) * P : ℚ) ≤ 120000 := by
      have := hfl.1
      have h2 : (n : ℚ) - 1 / 2 ≤ 60000 / (P : ℚ) := by linarith
      rw [le_div_iff₀ hPpos] at h2
      linarith
    exact_mod_cast h1
  have hhi : 120000 + 1 ≤ (2 * n + 1) * P := by
    have h1 : (120000 : ℚ) < ((2 * n + 1) * P : ℚ) := by
      have := hfl.2
      have h2 : 60000 / (P : ℚ) < (n : ℚ) + 1 / 2 := by linarith
      rw [div_lt_iff₀ hPpos] at h2
      linarith
    have h2 : (120000 : Int) < (2 * n + 1) * P := by exact_mod_cast h1
    omega
  have hn1 : 1 ≤ n := by
    by_contra hc
    have hn0 : n ≤ 0 := by omega
    have : (2 * n + 1) * P ≤ 1 * P := by
      apply Int.mul_le_mul_of_nonneg_right (by omega) (by omega)
    omega
  have hn2 : n ≤ 60000 := by
    by_contra hc
    have : (2 * 60001 - 1) * P ≤ (2 * n - 1) * P := by
      apply Int.mul_le_mul_of_nonneg_right (by omega) (by omega)
    have : (2 * 60001 - 1) * 1 ≤ (2 * 60001 - 1) * P := by
      apply Int.mul_le_mul_of_nonneg_left hP1 (by omega)
    omega
  have hnq1 : (1 : ℚ) ≤ n := by exact_mod_cast hn1
  have hnq2 : (n : ℚ) ≤ 60000 := by exact_mod_cast hn2
  have hloq : ((2 * n - 1) * P : ℚ) ≤ 120000 := by exact_mod_cast hlo
  have hhiq : (120001 : ℚ) ≤ ((2 * n + 1) * P : ℚ) := by exact_mod_cast hhi
  -- the barriers
  have hgrid1 : OnGrid ((n : ℚ) - 1 / 2) := by
    refine onGrid_of _ (2 * n - 1).toNat (-1) (by omega) (by omega) (by omega) ?_
    have : (((2 * n - 1).toNat : ℕ) : ℚ) = ((2 * n - 1 : ℤ) : ℚ) := by
      rw [← Int.cast_natCast, Int.toNat_of_nonneg (by omega)]
    rw [this]
    push_cast
    rw [show (2 : ℚ) ^ (-1 : ℤ) = 1 / 2 by norm_num]
    ring
  have hgrid2 : OnGrid ((n : ℚ) + 1 / 2 - 1 / 2 ^ 18) := by
    refine onGrid_of _ ((2 * n + 1) * 2 ^ 17 - 1).toNat (-18) (by omega) (by omega) (by omega) ?_
    have : ((((2 * n + 1) * 2 ^ 17 - 1).toNat : ℕ) : ℚ) = (((2 * n + 1) * 2 ^ 17 - 1 : ℤ) : ℚ) := by
      rw [← Int.cast_natCast, Int.toNat_of_nonneg (by omega)]
    rw [this]
    push_cast
    rw [show (2 : ℚ) ^ (-18 : ℤ) = 1 / 2 ^ 18 by norm_num]
    ring
  -- the quotient lies between them
  have hz : (n : ℚ) - 1 / 2 ≤ 60000 / avg ∧ 60000 / avg ≤ (n : ℚ) + 1 / 2 - 1 / 2 ^ 18 := by
    rcases h with h | ⟨hodd, ha1, ha2⟩
    · rw [h]
      constructor
      · linarith [hfl.1]
      · rw [div_le_iff₀ hPpos]
        nlinarith
    · have hapos : (0 : ℚ) < avg := by
        have : (0 : ℚ) < (P : ℚ) - 1 / 2 ^ 36 := by norm_num; linarith
        linarith
      have hlo' : (2 * n - 1) * P ≤ 119999 := by
        have hoddprod : ((2 * n - 1) * P) % 2 = 1 := by
          rw [Int.mul_emod, hodd]
          have : (2 * n - 1) % 2 = 1 := by omega
          rw [this]
          rfl
        omega
      have hloq' : ((2 * n - 1) * P : ℚ) ≤ 119999 := by exact_mod_cast hlo'
      constructor
      · rw [le_div_iff₀ hapos]
        nlinarith
      · rw [div_le_iff₀ hapos]
        nlinarith
  have hzpos : (0 : ℚ) < 60000 / avg := by
    have : (0 : ℚ) < (n : ℚ) - 1 / 2 := by linarith
    linarith [hz.1]
  have hb1 := grid_le_roundPos _ _ hgrid1 hz.1
  have hb2 := roundPos_le_grid _ _ hzpos hgrid2 hz.2
  rw [hn]
  apply roundHalfUp_eq
  · exact hb1
  · have : (0 : ℚ) < 1 / 2 ^ 18 := by positivity
    linarith

theorem roundHalfUp_quotient_small (avg : ℚ) (h : (120000 : ℚ) + 1 / 2 ≤ avg) :
    roundHalfUp (roundPos (60000 / avg)) = 0 := by
  have hapos : (0 : ℚ) < avg := by linarith
  have hzpos : (0 : ℚ) < 60000 / avg := by positivity
  have hgrid : OnGrid ((1 : ℚ) / 2 - 1 / 2 ^ 19) := by
    refine onGrid_of _ (2 ^ 18 - 1) (-19) (by norm_num) (by norm_num) (by norm_num) ?_
    norm_num
  have hz : 60000 / avg ≤ (1 : ℚ) / 2 - 1 / 2 ^ 19 := by
    rw [div_le_iff₀ hapos]
    norm_num
    linarith
  have hb := roundPos_le_grid _ _ hzpos hgrid hz
  have hnn := roundPos_nonneg _ hzpos
  apply roundHalfUp_eq
  · push_cast
    linarith
  · push_cast
    have : (0 : ℚ) < 1 / 2 ^ 19 := by positivity
    linarith

/-- A positive integer under `2 ^ 53` is on the grid. -/
theorem onGrid_int (D : Int) (h1 : 1 ≤ D) (h2 : D < 2 ^ 53) : OnGrid (D : ℚ) := by
  refine onGrid_of _ D.toNat 0 (by omega) (by omega) (by omega) ?_
  have : ((D.toNat : ℕ) : ℚ) = ((D : ℤ) : ℚ) := by
    rw [← Int.cast_natCast, Int.toNat_of_nonneg (by omega)]
  rw [this]
  simp

/-- A positive even integer under `2 ^ 54` is on the grid. -/
theorem onGrid_even (D : Int) (h1 : 1 ≤ D) (h2 : D < 2 ^ 54) (h3 : D % 2 = 0) : OnGrid (D : ℚ) := by
  refine onGrid_of _ (D / 2).toNat 1 (by omega) (by omega) (by omega) ?_
  have : (((D / 2).toNat : ℕ) : ℚ) = ((D / 2 : ℤ) : ℚ) := by
    rw [← Int.cast_natCast, Int.toNat_of_nonneg (by omega)]
  rw [this]
  have hD : D = D / 2 * 2 := by omega
  conv_lhs => rw [hD]
  push_cast
  norm_num

/-- The double nearest to a positive integer under `2 ^ 54 - 1` is within 1
of it, and is the integer itself when that is even or under `2 ^ 53`. -/
theorem roundPos_int (D : Int) (h1 : 1 ≤ D) (h2 : D + 1 < 2 ^ 54) :
    ((D : ℚ) - 1 ≤ roundPos D ∧ roundPos D ≤ (D : ℚ) + 1) ∧
    ((D < 2 ^ 53 ∨ D % 2 = 0) → roundPos (D : ℚ) = D) := by
  have hDpos : (0 : ℚ) < (D : ℚ) := by exact_mod_cast h1
  have hexact : (D < 2 ^ 53 ∨ D % 2 = 0) → roundPos (D : ℚ) = D := by
    intro h
    rcases h with h | h
    · exact roundPos_grid _ (onGrid_int D h1 h)
    · exact roundPos_grid _ (onGrid_even D h1 (by omega) h)
  refine ⟨?_, hexact⟩
  by_cases h : D < 2 ^ 53 ∨ D % 2 = 0
  · rw [hexact h]
    constructor <;> linarith
  · have hodd : D % 2 = 1 := by omega
    have hg1 : OnGrid (((D - 1 : Int)) : ℚ) := onGrid_even (D - 1) (by omega) (by omega) (by omega)
    have hg2 : OnGrid (((D + 1 : Int)) : ℚ) := onGrid_even (D + 1) (by omega) (by omega) (by omega)
    have hb1 := grid_le_roundPos (D : ℚ) _ hg1 (by push_cast; linarith)
    have hb2 := roundPos_le_grid (D : ℚ) _ hDpos hg2 (by push_cast; linarith)
    push_cast at hb1 hb2
    exact ⟨hb1, hb2⟩

theorem onGrid_two_pow (n : Nat) : OnGrid ((2 : ℚ) ^ n) := by
  refine onGrid_of _ 1 n (by norm_num) (by norm_num) (by omega) ?_
  simp

/-- A positive rational that is at most `2 ^ 54` rounds to a finite double. -/
theorem ofRat_pos (x : ℚ) (hx : 0 < x) (hb : x ≤ 2 ^ 54) :
    JsNum.ofRat x = .fin (roundPos x) := by
  have hle := roundPos_le_grid x _ hx (onGrid_two_pow 54) hb
  have hlt : roundPos x < 2 ^ 1024 := lt_of_le_of_lt hle (by norm_num)
  unfold JsNum.ofRat
  rw [if_neg hx.ne', if_pos hx, if_pos hlt]

theorem div_fin_pos (a b : ℚ) (hb : 0 < b) (ha : 0 < a) (hab : a / b ≤ 2 ^ 54) :
    JsNum.div (.fin a) (.fin b) = .fin (roundPos (a / b)) := by
  show (if b = 0 then _ else JsNum.ofRat (a / b)) = _
  rw [if_neg hb.ne']
  exact ofRat_pos _ (div_pos ha hb) hab

/-- The BPM of peaks whose first and last are `m` intervals of `P`
milliseconds apart, the time values being in the range of a date. -/
theorem bpm_of_even_spacing (m : Nat) (P t0 : Int) (hm : 1 ≤ m) (hP : 1 ≤ P)
    (hD : (m : Int) * P ≤ 17280000000000000) :
    (durationOf t0 (t0 + (m : Int) * P)).gt (.fin 0) = true ∧
    mathRound (bpmQuotient (durationOf t0 (t0 + (m : Int) * P)) m)
      = roundHalfUp (60000 / (P : ℚ)) := by
  obtain ⟨D, hDdef⟩ : ∃ D : Int, D = (m : Int) * P := ⟨_, rfl⟩
  have hD1 : 1 ≤ D := by
    rw [hDdef]
    have : (1 : Int) * 1 ≤ (m : Int) * P := Int.mul_le_mul (by omega) hP (by omega) (by omega)
    omega
  have hD2 : D ≤ 17280000000000000 := by rw [hDdef]; exact hD
  have hmq : (1 : ℚ) ≤ (m : ℚ) := by exact_mod_cast hm
  have hmpos : (0 : ℚ) < (m : ℚ) := by linarith
  have hPq : (1 : ℚ) ≤ (P : ℚ) := by exact_mod_cast hP
  have hDq : (D : ℚ) = (m : ℚ) * (P : ℚ) := by rw [hDdef]; push_cast; rfl
  have hDq1 : (1 : ℚ) ≤ (D : ℚ) := by exact_mod_cast hD1
  have hDq2 : (D : ℚ) ≤ 17280000000000000 := by exact_mod_cast hD2
  have hdur : durationOf t0 (t0 + (m : Int) * P) = .fin (roundPos (D : ℚ)) := by
    unfold durationOf
    rw [← hDdef, show t0 + D - t0 = D by omega]
    exact ofRat_pos _ (by linarith) (by linarith)
  obtain ⟨⟨hf1, hf2⟩, hexact⟩ := roundPos_int D hD1 (by omega)
  have hfD1 : (1 : ℚ) ≤ roundPos (D : ℚ) := by
    have := grid_le_roundPos (D : ℚ) 1 (by simpa using onGrid_two_pow 0) hDq1
    exact this
  rw [hdur]
  refine ⟨by simp [JsNum.gt]; linarith, ?_⟩
  -- the average interval
  have hy : roundPos (D : ℚ) / (m : ℚ) ≤ 2 ^ 54 := by
    rw [div_le_iff₀ hmpos]
    have : (2 : ℚ) ^ 54 ≤ 2 ^ 54 * (m : ℚ) := by nlinarith
    linarith
  have havg : JsNum.div (.fin (roundPos (D : ℚ))) (.fin (m : ℚ))
      = .fin (roundPos (roundPos (D : ℚ) / (m : ℚ))) :=
    div_fin_pos _ _ hmpos (by linarith) hy
  have hypos : (0 : ℚ) < roundPos (D : ℚ) / (m : ℚ) := div_pos (by linarith) hmpos
  unfold bpmQuotient
  rw [havg]
  -- the two cases for P
  by_cases hPbig : P ≤ 120000
  · have hPq2 : (P : ℚ) ≤ 120000 := by exact_mod_cast hPbig
    have hkey : roundPos (roundPos (D : ℚ) / (m : ℚ)) = P ∨
        (P % 2 = 1 ∧ (P : ℚ) - 1 / 2 ^ 36 ≤ roundPos (roundPos (D : ℚ) / (m : ℚ)) ∧
          roundPos (roundPos (D : ℚ) / (m : ℚ)) ≤ (P : ℚ) + 1 / 2 ^ 36) := by
      by_cases hex : D < 2 ^ 53 ∨ D % 2 = 0
      · left
        rw [hexact hex, hDq, mul_div_cancel_left₀ _ hmpos.ne']
        exact roundPos_grid _ (onGrid_int P hP (by omega))
      · right
        have hodd : D % 2 = 1 := by omega
        have hbig : 2 ^ 53 ≤ D := by omega
        have hPodd : P % 2 = 1 := by
          rcases Int.emod_two_eq_zero_or_one P with h0 | h1
          · exfalso
            have : D % 2 = 0 := by
              rw [hDdef, Int.mul_emod, h0]
              simp
            omega
          · exact h1
        have hmbig : (2 : ℚ) ^ 36 ≤ (m : ℚ) := by
          by_contra hc
          have hlt : (m : ℚ) < 2 ^ 36 := lt_of_not_le hc
          have : (D : ℚ) < 2 ^ 53 := by
            rw [hDq]
            calc (m : ℚ) * (P : ℚ) ≤ (m : ℚ) * 120000 := by nlinarith
              _ < 2 ^ 36 * 120000 := by nlinarith
              _ < 2 ^ 53 := by norm_num
          have : D < 2 ^ 53 := by exact_mod_cast this
          omega
        have hinv : 1 / (m : ℚ) ≤ 1 / 2 ^ 36 := by
          apply one_div_le_one_div_of_le (by positivity) hmbig
        have hy1 : (P : ℚ) - 1 / 2 ^ 36 ≤ roundPos (D : ℚ) / (m : ℚ) := by
          rw [le_div_iff₀ hmpos]
          have : (1 : ℚ) / 2 ^ 36 * (m : ℚ) ≥ 1 := by
            have := mul_le_mul_of_nonneg_right hmbig (by positivity : (0 : ℚ) ≤ 1 / 2 ^ 36)
            linarith
          nlinarith
        have hy2 : roundPos (D : ℚ) / (m : ℚ) ≤ (P : ℚ) + 1 / 2 ^ 36 := by
          rw [div_le_iff₀ hmpos]
          have : (1 : ℚ) / 2 ^ 36 * (m : ℚ) ≥ 1 := by
            have := mul_le_mul_of_nonneg_right hmbig (by positivity : (0 : ℚ) ≤ 1 / 2 ^ 36)
            linarith
          nlinarith
        have hg1 : OnGrid ((P : ℚ) - 1 / 2 ^ 36) := by
          refine onGrid_of _ (P * 2 ^ 36 - 1).toNat (-36) (by omega) (by omega) (by omega) ?_
          have : (((P * 2 ^ 36 - 1).toNat : ℕ) : ℚ) = ((P * 2 ^ 36 - 1 : ℤ) : ℚ) := by
            rw [← Int.cast_natCast, Int.toNat_of_nonneg (by omega)]
          rw [this]
          push_cast
          rw [show (2 : ℚ) ^ (-36 : ℤ) = 1 / 2 ^ 36 by norm_num]
          ring
        have hg2 : OnGrid ((P : ℚ) + 1 / 2 ^ 36) := by
          refine onGrid_of _ (P * 2 ^ 36 + 1).toNat (-36) (by omega) (by omega) (by omega) ?_
          have : (((P * 2 ^ 36 + 1).toNat : ℕ) : ℚ) = ((P * 2 ^ 36 + 1 : ℤ) : ℚ) := by
            rw [← Int.cast_natCast, Int.toNat_of_nonneg (by omega)]
          rw [this]
          push_cast
          rw [show (2 : ℚ) ^ (-36 : ℤ) = 1 / 2 ^ 36 by norm_num]
          ring
        exact ⟨hPodd, grid_le_roundPos _ _ hg1 hy1, roundPos_le_grid _ _ hypos hg2 hy2⟩
    have havgpos : (1 : ℚ) / 2 ≤ roundPos (roundPos (D : ℚ) / (m : ℚ)) := by
      rcases hkey with h | ⟨-, h, -⟩
      · rw [h]; linarith
      · have : (1 : ℚ) / 2 ^ 36 ≤ 1 / 2 := by norm_num
        linarith
    have hz : (60000 : ℚ) / roundPos (roundPos (D : ℚ) / (m : ℚ)) ≤ 2 ^ 54 := by
      rw [div_le_iff₀ (by linarith)]
      have : (2 : ℚ) ^ 54 * (1 / 2) ≤ 2 ^ 54 * roundPos (roundPos (D : ℚ) / (m : ℚ)) :=
        mul_le_mul_of_nonneg_left havgpos (by positivity)
      norm_num at this ⊢
      linarith
    rw [div_fin_pos _ _ (by linarith) (by norm_num) hz]
    exact roundHalfUp_quotient P _ hP hPbig hkey
  · have hPbig' : 120001 ≤ P := by omega
    have hPq2 : (120001 : ℚ) ≤ (P : ℚ) := by exact_mod_cast hPbig'
    have hy1 : (120000 : ℚ) + 1 / 2 ≤ roundPos (D : ℚ) / (m : ℚ) := by
      rw [le_div_iff₀ hmpos]
      by_cases hex : D < 2 ^ 53 ∨ D % 2 = 0
      · rw [hexact hex, hDq]
        nlinarith
      · have hbig : 2 ^ 53 ≤ D := by omega
        have hbigq : (2 : ℚ) ^ 53 ≤ (D : ℚ) := by exact_mod_cast hbig
        by_cases hm1 : m = 1
        · rw [hm1]
          norm_num at hbigq ⊢
          linarith
        · have hm2 : (2 : ℚ) ≤ (m : ℚ) := by
            have : 2 ≤ m := by omega
            exact_mod_cast this
          have : (D : ℚ) - 1 ≥ (120000 + 1 / 2) * (m : ℚ) := by
            rw [hDq]
            nlinarith
          linarith
    have hg : OnGrid ((120000 : ℚ) + 1 / 2) := by
      refine onGrid_of _ 240001 (-1) (by norm_num) (by norm_num) (by norm_num) ?_
      norm_num
    have havg1 := grid_le_roundPos _ _ hg hy1
    have hz : (60000 : ℚ) / roundPos (roundPos (D : ℚ) / (m : ℚ)) ≤ 2 ^ 54 := by
      rw [div_le_iff₀ (by linarith)]
      have : (2 : ℚ) ^ 54 * 1 ≤ 2 ^ 54 * roundPos (roundPos (D : ℚ) / (m : ℚ)) :=
        mul_le_mul_of_nonneg_left (by linarith) (by positivity)
      norm_num at this ⊢
      linarith
    rw [div_fin_pos _ _ (by linarith) (by norm_num) hz]
    show roundHalfUp _ = _
    rw [roundHalfUp_quotient_small _ havg1]
    symm
    apply roundHalfUp_eq
    · push_cast
      have : (0 : ℚ) < 60000 / (P : ℚ) := by positivity
      linarith
    · push_cast
      rw [div_lt_iff₀ (by linarith)]
      linarith

theorem ofRat_gt_zero (x : ℚ) (h : (JsNum.ofRat x).gt (.fin 0) = true) : 0 < x := by
  by_contra hc
  unfold JsNum.ofRat at h
  by_cases h0 : x = 0
  · rw [if_pos h0] at h
    simp [JsNum.gt] at h
  · have hneg : 0 < -x := by
      rcases lt_trichotomy x 0 with hlt | heq | hgt
      · linarith
      · exact absurd heq h0
      · exact absurd hgt hc
    rw [if_neg h0, if_neg hc] at h
    have hnn := roundPos_nonneg (-x) hneg
    split at h
    · simp only [JsNum.gt, decide_eq_true_eq] at h
      linarith
    · simp [JsNum.gt] at h

/-- The quotient `60000 / avgInterval` is a finite number whenever the two
time values are in the range of a date and there are fewer than `2 ^ 32`
intervals, as in every JavaScript array. -/
theorem bpmQuotient_finite (first last : Int) (m : Nat)
    (hf : first.natAbs ≤ 8640000000000000) (hl : last.natAbs ≤ 8640000000000000)
    (hm1 : 1 ≤ m) (hm2 : m < 2 ^ 32)
    (hgt : (durationOf first last).gt (.fin 0) = true) :
    ∃ q, bpmQuotient (durationOf first last) m = .fin q := by
  have hD0 : (0 : ℚ) < ((last - first : Int) : ℚ) := ofRat_gt_zero _ hgt
  have hD1 : 1 ≤ last - first := by
    have : (0 : Int) < last - first := by exact_mod_cast hD0
    omega
  have hD2 : last - first + 1 < 2 ^ 54 := by omega
  have hDq1 : (1 : ℚ) ≤ ((last - first : Int) : ℚ) := by exact_mod_cast hD1
  have hDq2 : ((last - first : Int) : ℚ) ≤ 2 ^ 54 := by
    have : last - first ≤ 2 ^ 54 := by omega
    exact_mod_cast this
  have hmq : (1 : ℚ) ≤ (m : ℚ) := by exact_mod_cast hm1
  have hmq2 : (m : ℚ) ≤ 2 ^ 32 := by
    have : m ≤ 2 ^ 32 := by omega
    exact_mod_cast this
  have hmpos : (0 : ℚ) < (m : ℚ) := by linarith
  obtain ⟨⟨-, hup⟩, -⟩ := roundPos_int (last - first) hD1 hD2
  have hlow : (1 : ℚ) ≤ roundPos ((last - first : Int) : ℚ) :=
    grid_le_roundPos _ 1 (by simpa using onGrid_two_pow 0) hDq1
  have hdur : durationOf first last = .fin (roundPos ((last - first : Int) : ℚ)) :=
    ofRat_pos _ hD0 hDq2
  have hy : roundPos ((last - first : Int) : ℚ) / (m : ℚ) ≤ 2 ^ 54 := by
    rw [div_le_iff₀ hmpos]
    have h54 : ((last - first : Int) : ℚ) + 1 ≤ 2 ^ 54 := by
      have : last - first + 1 ≤ 2 ^ 54 := by omega
      exact_mod_cast this
    have : (2 : ℚ) ^ 54 ≤ 2 ^ 54 * (m : ℚ) := by nlinarith
    linarith
  have hylow : (1 : ℚ) / 2 ^ 32 ≤ roundPos ((last - first : Int) : ℚ) / (m : ℚ) := by
    rw [le_div_iff₀ hmpos]
    have h1 : (1 : ℚ) / 2 ^ 32 * (m : ℚ) ≤ 1 / 2 ^ 32 * 2 ^ 32 :=
      mul_le_mul_of_nonneg_left hmq2 (by positivity)
    have h2 : (1 : ℚ) / 2 ^ 32 * 2 ^ 32 = 1 := by norm_num
    linarith
  have hg : OnGrid ((1 : ℚ) / 2 ^ 32) := by
    refine onGrid_of _ 1 (-32) (by norm_num) (by norm_num) (by norm_num) ?_
    norm_num
  have havg := grid_le_roundPos _ _ hg hylow
  have havgpos : (0 : ℚ) < roundPos (roundPos ((last - first : Int) : ℚ) / (m : ℚ)) :=
    lt_of_lt_of_le (by positivity) havg
  have hz : (60000 : ℚ) / roundPos (roundPos ((last - first : Int) : ℚ) / (m : ℚ)) ≤ 2 ^ 54 := by
    rw [div_le_iff₀ havgpos]
    have h1 : (2 : ℚ) ^ 54 * (1 / 2 ^ 32) ≤
        2 ^ 54 * roundPos (roundPos ((last - first : Int) : ℚ) / (m : ℚ)) :=
      mul_le_mul_of_nonneg_left havg (by positivity)
    have h2 : (60000 : ℚ) ≤ 2 ^ 54 * (1 / 2 ^ 32) := by norm_num
    linarith
  refine ⟨roundPos (60000 / roundPos (roundPos ((last - first : Int) : ℚ) / (m : ℚ))), ?_⟩
  unfold bpmQuotient
  rw [hdur, div_fin_pos _ _ hmpos (by linarith) hy]
  exact div_fin_pos _ _ havgpos (by norm_num) hz

/-- The threshold is the double product: with a maximum of 1.3 it is
0.9099999999999999, and 0.91 is above it. -/
theorem mul07_is_double_product :
    (JsNum.ofRat (91 / 100)).gt (JsNum.ofRat (13 / 10)).mul07 = true ∧
    (JsNum.ofRat (13 / 10)).mul07.gt (.fin (9099999999999999 / 10000000000000000)) = true ∧
    (JsNum.fin (91 / 100)).gt (JsNum.ofRat (13 / 10)).mul07 = true := by
  refine ⟨by decide!, by decide!, by decide!⟩

/-- At the window `boundaryCrests` the crest of value 0.91 is a peak, and the
two peaks, 208 ms apart, give bpm 288. -/
theorem boundaryCrests_bpm :
    candidates exampleRuntime boundaryCrests = [1, 53] ∧
    calculateMetrics exampleRuntime (.array (windowArray boundaryCrests))
      = .ok ⟨288, "tachycardia"⟩ := by
  refine ⟨by decide!, by decide!⟩

/-- The divisions are those of doubles: four peaks that span 1600 ms give
`1600 / 3 = 533.3333333333334`, `60000 / 533.3333333333334 =
112.49999999999999` and bpm 112. -/
theorem bpm_of_four_peaks_over_1600 :
    mathRound (bpmQuotient (durationOf 0 1600) 3) = 112 := by decide!

/-! ## The estimator on windows of samples -/

theorem windowArray_getD (w : List Sample) (i : Nat) (h : i < w.length) :
    (windowArray w).getD i .undefined = (sampleAt w i).toJs := by
  have h2 : i < (windowArray w).length := by simpa [windowArray] using h
  rw [List.getD_eq_getElem _ _ h2]
  simp only [windowArray, sampleAt, List.getElem_map, List.getD_eq_getElem _ _ h]

theorem ecgAt_window (rt : Runtime) (w : List Sample) (i : Nat) (h : i < w.length) :
    ecgAt rt (windowArray w) i = .ok (ecgOf rt w i) := by
  unfold ecgAt
  rw [windowArray_getD w i h]
  rfl

theorem findMax_window_aux (rt : Runtime) (w : List Sample) (m : JsNum) :
    (windowArray w).foldlM
      (fun maxVal d => do
        let v ← JsValue.prop d "ecg_value"
        let val := rt.parseFloat v
        (pure (if val.gt maxVal then val else maxVal) : Except JsError JsNum)) m
    = .ok (w.foldl
        (fun m s => if (rt.parseFloat s.ecg_value).gt m then rt.parseFloat s.ecg_value else m) m) := by
  induction w generalizing m with
  | nil => rfl
  | cons s rest ih =>
    simp only [windowArray, List.map_cons, List.foldlM_cons, List.foldl_cons]
    have := ih (if (rt.parseFloat s.ecg_value).gt m then rt.parseFloat s.ecg_value else m)
    simp only [windowArray] at this
    rw [← this]
    rfl

theorem findMax_window (rt : Runtime) (w : List Sample) :
    findMax rt (windowArray w) = .ok (maxOf rt w) :=
  findMax_window_aux rt w JsNum.negInf

theorem peakBody_window (rt : Runtime) (w : List Sample) (thr : JsNum) (peaks : List Peak)
    (i : Nat) (h1 : 1 ≤ i) (h2 : i + 1 < w.length) :
    peakBody rt (windowArray w) thr peaks i = .ok (acceptStep w (isCrest rt w thr) peaks i) := by
  unfold peakBody
  rw [ecgAt_window rt w (i - 1) (by omega), ecgAt_window rt w i (by omega),
    ecgAt_window rt w (i + 1) h2, windowArray_getD w i (by omega)]
  simp only [bind, Except.bind, pure, Except.pure, acceptStep, isCrest]
  by_cases hc : ((ecgOf rt w i).gt thr && (ecgOf rt w i).gt (ecgOf rt w (i - 1)) &&
      (ecgOf rt w i).gt (ecgOf rt w (i + 1))) = true
  · by_cases ha : (decide (peaks.length = 0) ||
        decide (i - (peaks.getLast?.map Peak.index).getD 0 > 50)) = true
    · simp only [hc, ha, if_true]
      rfl
    · simp only [hc, ha, if_true]
      rfl
  · simp only [hc]
    rfl

theorem foldlM_peakBody_window (rt : Runtime) (w : List Sample) (thr : JsNum)
    (l : List Nat) (hl : ∀ i ∈ l, 1 ≤ i ∧ i + 1 < w.length) (peaks : List Peak) :
    l.foldlM (peakBody rt (windowArray w) thr) peaks
      = .ok (l.foldl (acceptStep w (isCrest rt w thr)) peaks) := by
  induction l generalizing peaks with
  | nil => rfl
  | cons i rest ih =>
    have hi := hl i (List.mem_cons_self _ _)
    simp only [List.foldlM_cons, List.foldl_cons]
    rw [peakBody_window rt w thr peaks i hi.1 hi.2]
    exact ih (fun j hj => hl j (List.mem_cons_of_mem _ hj)) _

theorem detectPeaks_window (rt : Runtime) (w : List Sample) (thr : JsNum) :
    detectPeaks rt (windowArray w) thr
      = .ok ((List.range' 1 (w.length - 2)).foldl (acceptStep w (isCrest rt w thr)) []) := by
  unfold detectPeaks
  have hlen : (windowArray w).length = w.length := by simp [windowArray]
  rw [hlen]
  apply foldlM_peakBody_window
  intro i hi
  rw [List.mem_range'_1] at hi
  omega

theorem calculateMetrics_array (rt : Runtime) (w : List Sample) (h : 10 ≤ w.length) :
    calculateMetrics rt (.array (windowArray w))
      = .ok ⟨computeBpm rt (acceptedPeaks rt w), statusOf (computeBpm rt (acceptedPeaks rt w))⟩ := by
  have hlen : (windowArray w).length = w.length := by simp [windowArray]
  have hnot : ¬ (windowArray w).length < 10 := by omega
  simp only [calculateMetrics, hnot, decide_False, dataArrayOf, findMax_window]
  simp [detectPeaks_window, acceptedPeaks]
  rfl

theorem calculateMetrics_mapping (rt : Runtime) (w : List Sample) :
    calculateMetrics rt (.mapping (windowArray w))
      = .ok ⟨computeBpm rt (acceptedPeaks rt w), statusOf (computeBpm rt (acceptedPeaks rt w))⟩ := by
  simp only [calculateMetrics, dataArrayOf, findMax_window]
  simp [detectPeaks_window, acceptedPeaks]
  rfl

/-! ## Invariants of the refractory scan -/

theorem acceptStep_mem (w : List Sample) (crest : Nat → Bool) (peaks : List Peak) (i : Nat)
    (p : Peak) (hp : p ∈ acceptStep w crest peaks i) :
    p ∈ peaks ∨ (p.index = i ∧ crest i = true) := by
  unfold acceptStep at hp
  split at hp
  · rename_i hc
    split at hp
    · rw [List.mem_append, List.mem_singleton] at hp
      rcases hp with hp | hp
      · exact Or.inl hp
      · exact Or.inr ⟨by rw [hp]; rfl, hc⟩
    · exact Or.inl hp
  · exact Or.inl hp

theorem foldl_acceptStep_mem (w : List Sample) (crest : Nat → Bool) (l : List Nat)
    (peaks : List Peak) (p : Peak) (hp : p ∈ l.foldl (acceptStep w crest) peaks) :
    p ∈ peaks ∨ (p.index ∈ l ∧ crest p.index = true) := by
  induction l generalizing peaks with
  | nil => exact Or.inl hp
  | cons i rest ih =>
    rw [List.foldl_cons] at hp
    rcases ih _ hp with h | h
    · rcases acceptStep_mem w crest peaks i p h with h' | h'
      · exact Or.inl h'
      · exact Or.inr ⟨by rw [h'.1]; exact List.mem_cons_self _ _, by rw [h'.1]; exact h'.2⟩
    · exact Or.inr ⟨List.mem_cons_of_mem _ h.1, h.2⟩

theorem acceptStep_chain (w : List Sample) (crest : Nat → Bool) (peaks : List Peak) (i : Nat)
    (h : List.Chain' farApart (peaks.map Peak.index)) :
    List.Chain' farApart ((acceptStep w crest peaks i).map Peak.index) := by
  unfold acceptStep
  split
  · split
    · rename_i hacc
      rw [List.map_append]
      apply List.Chain'.append h (List.chain'_singleton _)
      intro x hx y hy
      simp only [List.map_cons, List.map_nil, List.head?_cons, Option.mem_def,
        Option.some.injEq] at hy
      rw [List.getLast?_map] at hx
      rcases hlast : peaks.getLast? with _ | last
      · rw [hlast] at hx
        simp at hx
      · rw [hlast] at hx
        simp only [Option.map_some', Option.mem_def, Option.some.injEq] at hx
        have hne : peaks.length ≠ 0 := by
          intro h0
          rw [List.length_eq_zero] at h0
          rw [h0] at hlast
          simp at hlast
        simp only [hne, decide_False, Bool.false_or, hlast, Option.map_some', Option.getD_some,
          decide_eq_true_eq] at hacc
        unfold farApart
        rw [← hx, ← hy]
        exact hacc
    · exact h
  · exact h

theorem foldl_acceptStep_chain (w : List Sample) (crest : Nat → Bool) (l : List Nat)
    (peaks : List Peak) (h : List.Chain' farApart (peaks.map Peak.index)) :
    List.Chain' farApart ((l.foldl (acceptStep w crest) peaks).map Peak.index) := by
  induction l generalizing peaks with
  | nil => exact h
  | cons i rest ih =>
    rw [List.foldl_cons]
    exact ih _ (acceptStep_chain w crest peaks i h)

theorem acceptedPeaks_chain (rt : Runtime) (w : List Sample) :
    List.Chain' farApart ((acceptedPeaks rt w).map Peak.index) :=
  foldl_acceptStep_chain w _ _ [] List.chain'_nil

theorem acceptedPeaks_mem (rt : Runtime) (w : List Sample) (p : Peak)
    (hp : p ∈ acceptedPeaks rt w) : p.index ∈ candidates rt w := by
  rcases foldl_acceptStep_mem w _ _ [] p hp with h | h
  · simp at h
  · exact List.mem_filter.mpr h

theorem candidates_bounds (rt : Runtime) (w : List Sample) (i : Nat)
    (hi : i ∈ candidates rt w) : 1 ≤ i ∧ i + 1 < w.length := by
  have := (List.mem_filter.mp hi).1
  rw [List.mem_range'_1] at this
  omega

theorem computeBpm_of_length_le_one (rt : Runtime) (peaks : List Peak) (h : peaks.length ≤ 1) :
    computeBpm rt peaks = 0 := by
  unfold computeBpm
  have : ¬ peaks.length > 1 := by omega
  simp only [this, if_false]

/-- Two accepted peaks need 54 samples: under that, at most one is accepted. -/
theorem acceptedPeaks_short (rt : Runtime) (w : List Sample) (h : w.length < 54) :
    (acceptedPeaks rt w).length ≤ 1 := by
  have hchain := acceptedPeaks_chain rt w
  have hmem := acceptedPeaks_mem rt w
  rcases hr : acceptedPeaks rt w with _ | ⟨a, _ | ⟨b, rest⟩⟩
  · simp
  · simp
  · exfalso
    rw [hr] at hchain hmem
    have ha := candidates_bounds rt w a.index (hmem a (by simp))
    have hb := candidates_bounds rt w b.index (hmem b (by simp))
    simp only [List.map_cons, List.chain'_cons, farApart] at hchain
    omega

/-- When every two peak candidates are at most 50 indices apart, at most one
peak is accepted. -/
theorem acceptedPeaks_close (rt : Runtime) (w : List Sample)
    (h : ∀ i ∈ candidates rt w, ∀ j ∈ candidates rt w, j - i ≤ 50) :
    (acceptedPeaks rt w).length ≤ 1 := by
  have hchain := acceptedPeaks_chain rt w
  have hmem := acceptedPeaks_mem rt w
  rcases hr : acceptedPeaks rt w with _ | ⟨a, _ | ⟨b, rest⟩⟩
  · simp
  · simp
  · exfalso
    rw [hr] at hchain hmem
    have hab := h a.index (hmem a (by simp)) b.index (hmem b (by simp))
    simp only [List.map_cons, List.chain'_cons, farApart] at hchain
    omega

theorem foldl_acceptStep_all (w : List Sample) (crest : Nat → Bool) (l : List Nat)
    (peaks : List Peak)
    (h1 : List.Chain' farApart (l.filter crest))
    (h2 : ∀ last ∈ peaks.getLast?, ∀ c ∈ (l.filter crest).head?, farApart last.index c) :
    l.foldl (acceptStep w crest) peaks = peaks ++ (l.filter crest).map (peakAt w) := by
  induction l generalizing peaks with
  | nil => simp
  | cons i rest ih =>
    rw [List.foldl_cons]
    by_cases hc : crest i = true
    · rw [List.filter_cons_of_pos hc] at h1 h2 ⊢
      have hacc : (decide (peaks.length = 0) ||
          decide (i - (peaks.getLast?.map Peak.index).getD 0 > 50)) = true := by
        rcases hlast : peaks.getLast? with _ | last
        · have : peaks = [] := List.getLast?_eq_none_iff.mp hlast
          simp [this]
        · have := h2 last (by rw [hlast]; rfl) i (by simp)
          unfold farApart at this
          simp [this]
      have hstep : acceptStep w crest peaks i = peaks ++ [peakAt w i] := by
        unfold acceptStep
        rw [if_pos hc, if_pos hacc]
      rw [hstep, ih (peaks ++ [peakAt w i]) h1.tail]
      · simp
      · intro last hlast c hc'
        have hl : (peaks ++ [peakAt w i]).getLast? = some (peakAt w i) := by simp
        rw [hl] at hlast
        simp only [Option.mem_def, Option.some.injEq] at hlast
        rw [← hlast]
        exact h1.rel_head? hc'
    · have hstep : acceptStep w crest peaks i = peaks := by
        unfold acceptStep
        rw [if_neg hc]
      rw [List.filter_cons_of_neg hc] at h1 h2 ⊢
      rw [hstep]
      exact ih peaks h1 h2

/-- When every candidate lies more than 50 indices after the previous one,
every candidate is accepted. -/
theorem acceptedPeaks_all (rt : Runtime) (w : List Sample)
    (h : List.Chain' farApart (candidates rt w)) :
    acceptedPeaks rt w = (candidates rt w).map (peakAt w) := by
  unfold acceptedPeaks
  rw [foldl_acceptStep_all w _ _ [] h (by simp)]
  rfl

theorem chain_stepsBy_last (rt : Runtime) (w : List Sample) (P : Int) (l : List Nat) (a : Nat)
    (h : List.Chain (stepsBy rt w P) a l) (ta : Int) (hta : timeAt rt w a = .ok (some ta)) :
    ∀ z ∈ (a :: l).getLast?, timeAt rt w z = .ok (some (ta + (l.length : Int) * P)) := by
  induction l generalizing a ta with
  | nil =>
    intro z hz
    simp only [List.getLast?_singleton, Option.mem_def, Option.some.injEq] at hz
    rw [← hz, hta]
    simp
  | cons b rest ih =>
    intro z hz
    rw [List.chain_cons] at h
    obtain ⟨⟨t, h1, h2⟩, hrest⟩ := h
    have ht : t = ta := by
      rw [hta] at h1
      injection h1 with h1
      injection h1 with h1
      exact h1.symm
    rw [ht] at h2
    have hz2 : z ∈ (b :: rest).getLast? := by
      rw [List.getLast?_cons_cons] at hz
      exact hz
    rw [ih b hrest (ta + P) h2 z hz2]
    simp only [List.length_cons]
    push_cast
    ring_nf

/-- The BPM of `k ≥ 2` accepted crests that follow one another by `P` ms. -/
theorem computeBpm_evenly (rt : Runtime) (w : List Sample) (P : Int) (hP : 0 < P)
    (cs : List Nat) (hk : 2 ≤ cs.length) (h : List.Chain' (stepsBy rt w P) cs) :
    computeBpm rt (cs.map (peakAt w)) = roundHalfUp (60000 / (P : ℚ)) := by
  rcases cs with _ | ⟨a, _ | ⟨b, rest⟩⟩
  · simp at hk
  · simp at hk
  · have hchain : List.Chain (stepsBy rt w P) a (b :: rest) := h
    obtain ⟨ta, hta, -⟩ := (List.chain_cons.mp hchain).1
    obtain ⟨z, hz⟩ : ∃ z, (a :: b :: rest).getLast? = some z := by
      rw [List.getLast?_eq_getLast _ (by simp)]
      exact ⟨_, rfl⟩
    have hlast := chain_stepsBy_last rt w P (b :: rest) a hchain ta hta z hz
    have hlen : (List.map (peakAt w) (a :: b :: rest)).length > 1 := by simp
    have hlen2 : (List.map (peakAt w) (a :: b :: rest)).length - 1 = rest.length + 1 := by simp
    unfold timeAt at hta hlast
    have hr1 := rt.timeRange _ _ hta
    have hr2 := rt.timeRange _ _ hlast
    have hcast : ((b :: rest).length : Int) = ((rest.length + 1 : Nat) : Int) := by simp
    rw [hcast] at hlast hr2
    have hD : ((rest.length + 1 : Nat) : Int) * P ≤ 17280000000000000 := by omega
    obtain ⟨hgt, hbpm⟩ := bpm_of_even_spacing (rest.length + 1) P ta (by omega) (by omega) hD
    unfold computeBpm
    rw [if_pos hlen, List.getLast?_map, hz, hlen2]
    simp only [List.map_cons, List.head?_cons, Option.map_some']
    simp only [peakAt, hta, hlast]
    rw [if_pos hgt]
    exact hbpm

/-! ## The rolling window (C1) -/

/-- C1: for every stored window `w`, held as an array or as an index-keyed
object, and every batch `b`, the transaction update function returns exactly
the last `min 300 (len w + len b)` elements of `w ++ b` in their order, so
never more than 300; an absent record is treated as the empty window. -/
theorem transactionUpdate_trailing_slice (w points : List JsValue) :
    TrailingSlice (transactionUpdate points (.array w)) w points ∧
    TrailingSlice (transactionUpdate points (.mapping w)) w points ∧
    TrailingSlice (transactionUpdate points .absent) [] points := by
  have key : ∀ v : List JsValue,
      TrailingSlice (if (v ++ points).length > 300
        then (v ++ points).drop ((v ++ points).length - 300) else v ++ points) v points := by
    intro v
    have hdrop : (if (v ++ points).length > 300
        then (v ++ points).drop ((v ++ points).length - 300) else v ++ points)
        = (v ++ points).drop ((v ++ points).length - min 300 (v.length + points.length)) := by
      simp only [List.length_append]
      split
      · rename_i h
        rw [Nat.min_eq_left (by omega)]
      · rename_i h
        rw [Nat.min_eq_right (by omega), Nat.sub_self, List.drop_zero]
    have hlen : (if (v ++ points).length > 300
        then (v ++ points).drop ((v ++ points).length - 300) else v ++ points).length
        = min 300 (v.length + points.length) := by
      rw [hdrop, List.length_drop, List.length_append]
      omega
    refine ⟨hdrop, ?_, hlen, ?_⟩
    · rw [hdrop]
      exact List.drop_suffix _ _
    · rw [hlen]
      exact Nat.min_le_left _ _
  exact ⟨key w, key w, key []⟩

/-! ## The estimator (C2 to C6, C8, C10) -/

theorem calculateMetrics_array_short (rt : Runtime) (items : List JsValue)
    (h : items.length < 10) :
    calculateMetrics rt (.array items) = .ok ⟨0, "insufficient_data"⟩ := by
  simp [calculateMetrics, h]

theorem statusOf_zero : statusOf 0 = "normal" := by decide

theorem statusOf_ne_insufficient (bpm : Int) : statusOf bpm ≠ "insufficient_data" := by
  unfold statusOf
  split
  · decide
  · split <;> decide

/-- On a window held as an array, the status is `insufficient_data` exactly
when the window has fewer than 10 samples. -/
theorem calculateMetrics_array_insufficient_iff (rt : Runtime) (w : List Sample) :
    (w.length < 10 →
      calculateMetrics rt (.array (windowArray w)) = .ok ⟨0, "insufficient_data"⟩) ∧
    (10 ≤ w.length → ∃ m, calculateMetrics rt (.array (windowArray w)) = .ok m ∧
      m.status ≠ "insufficient_data") := by
  constructor
  · intro h
    exact calculateMetrics_array_short rt _ (by simpa [windowArray] using h)
  · intro h
    exact ⟨_, calculateMetrics_array rt w h, statusOf_ne_insufficient _⟩

/-- C5, at the failing input: a window of two samples that the database
returns as an index-keyed object passes the length guard, since `data.length`
is `undefined` there, and gets bpm 0 with status `normal`, not
`insufficient_data`. -/
theorem calculateMetrics_mapping_two_samples (rt : Runtime) (a b : Sample) :
    calculateMetrics rt (.mapping (windowArray [a, b])) = .ok ⟨0, "normal"⟩ := by
  rw [calculateMetrics_mapping,
    computeBpm_of_length_le_one rt _ (acceptedPeaks_short rt [a, b] (by simp))]
  rfl

/-- C6: for every window of at least 10 samples, held as an array or as an
index-keyed object, `calculateMetrics` returns, and the status it returns is
`tachycardia` if bpm > 100, `bradycardia` if 0 < bpm < 60, and `normal`
otherwise. -/
theorem calculateMetrics_status_from_bpm (rt : Runtime) (w : List Sample)
    (hlen : 10 ≤ w.length) :
    ∀ data ∈ [WindowData.array (windowArray w), WindowData.mapping (windowArray w)],
      ∃ m, calculateMetrics rt data = .ok m ∧
        m.status = (if m.bpm > 100 then "tachycardia"
          else if 0 < m.bpm ∧ m.bpm < 60 then "bradycardia" else "normal") := by
  intro data hdata
  have hres : calculateMetrics rt data
      = .ok ⟨computeBpm rt (acceptedPeaks rt w), statusOf (computeBpm rt (acceptedPeaks rt w))⟩ := by
    simp only [List.mem_cons, List.mem_singleton, List.not_mem_nil, or_false] at hdata
    rcases hdata with h | h
    · rw [h]
      exact calculateMetrics_array rt w hlen
    · rw [h]
      exact calculateMetrics_mapping rt w
  refine ⟨_, hres, ?_⟩
  simp only [statusOf]
  split
  · rfl
  · split
    · rename_i h
      rw [if_pos ⟨h.2, h.1⟩]
    · rename_i h
      rw [if_neg (fun h2 => h ⟨h2.2, h2.1⟩)]

/-- C6 at the twelve-sample window. -/
theorem calculateMetrics_status_from_bpm_witness :
    10 ≤ twelveSamples.length ∧
    ∀ data ∈ [WindowData.array (windowArray twelveSamples),
        WindowData.mapping (windowArray twelveSamples)],
      ∃ m, calculateMetrics exampleRuntime data = .ok m ∧
        m.status = (if m.bpm > 100 then "tachycardia"
          else if 0 < m.bpm ∧ m.bpm < 60 then "bradycardia" else "normal") :=
  ⟨by decide!, calculateMetrics_status_from_bpm exampleRuntime twelveSamples (by decide!)⟩

/-- C10: for every window of fewer than 54 samples, whatever its values and
timestamps, and whether it is held as an array or as an index-keyed object,
the scan accepts at most one peak and `calculateMetrics` returns bpm 0. -/
theorem calculateMetrics_bpm_zero_under_54 (rt : Runtime) (w : List Sample)
    (h : w.length < 54) :
    (∃ peaks, detectPeaks rt (windowArray w) (maxOf rt w).mul07 = .ok peaks ∧
      peaks.length ≤ 1) ∧
    (calculateMetrics rt (.array (windowArray w))).map Metrics.bpm = .ok 0 ∧
    (calculateMetrics rt (.mapping (windowArray w))).map Metrics.bpm = .ok 0 := by
  have hz := computeBpm_of_length_le_one rt _ (acceptedPeaks_short rt w h)
  refine ⟨⟨_, detectPeaks_window rt w _, acceptedPeaks_short rt w h⟩, ?_, ?_⟩
  · by_cases h10 : w.length < 10
    · rw [calculateMetrics_array_short rt _ (by simpa [windowArray] using h10)]
      rfl
    · rw [calculateMetrics_array rt w (by omega), hz]
      rfl
  · rw [calculateMetrics_mapping rt w, hz]
    rfl

/-- C10 at the twelve-sample window. -/
theorem calculateMetrics_bpm_zero_under_54_witness :
    twelveSamples.length < 54 ∧
    (calculateMetrics exampleRuntime (.array (windowArray twelveSamples))).map Metrics.bpm
      = .ok 0 :=
  ⟨by decide!, (calculateMetrics_bpm_zero_under_54 exampleRuntime twelveSamples (by decide!)).2.1⟩

/-- C2, refuted as stated: the twelve-sample window has valid timestamps and
exactly two clear peaks, at indices 2 and 8, 600 ms apart; the second lies
within the refractory distance of the first, and `calculateMetrics` returns
bpm 0, not 100. -/
theorem twelveSamples_bpm_is_not_100 :
    twelveSamples.length = 12 ∧
    twelveSamples.all (hasValidTime exampleRuntime) = true ∧
    candidates exampleRuntime twelveSamples = [2, 8] ∧
    timeAt exampleRuntime twelveSamples 2 = .ok (some 200) ∧
    timeAt exampleRuntime twelveSamples 8 = .ok (some (200 + 600)) ∧
    calculateMetrics exampleRuntime (.array (windowArray twelveSamples)) = .ok ⟨0, "normal"⟩ ∧
    (calculateMetrics exampleRuntime (.array (windowArray twelveSamples))).map Metrics.bpm
      ≠ .ok 100 := by
  refine ⟨by decide!, by decide!, by decide!, by decide!, by decide!, by decide!, by decide!⟩

/-- C2, amended: for a window of 12 samples with valid timestamps and exactly
two clear peaks whose timestamps are 600 ms apart, the scan accepts one peak
only and `calculateMetrics` returns bpm 0 and status `normal`. -/
theorem calculateMetrics_twelve_samples (rt : Runtime) (w : List Sample) (i j : Nat) (t : Int)
    (hlen : w.length = 12) (_hvalid : w.all (hasValidTime rt) = true)
    (_hcand : candidates rt w = [i, j])
    (_hi : timeAt rt w i = .ok (some t)) (_hj : timeAt rt w j = .ok (some (t + 600))) :
    (∃ peaks, detectPeaks rt (windowArray w) (maxOf rt w).mul07 = .ok peaks ∧
      peaks.length ≤ 1) ∧
    calculateMetrics rt (.array (windowArray w)) = .ok ⟨0, "normal"⟩ ∧
    calculateMetrics rt (.mapping (windowArray w)) = .ok ⟨0, "normal"⟩ := by
  have hshort := acceptedPeaks_short rt w (by omega)
  have hz := computeBpm_of_length_le_one rt _ hshort
  refine ⟨⟨_, detectPeaks_window rt w _, hshort⟩, ?_, ?_⟩
  · rw [calculateMetrics_array rt w (by omega), hz]
    rfl
  · rw [calculateMetrics_mapping rt w, hz]
    rfl

/-- C2, amended, at the twelve-sample window. -/
theorem calculateMetrics_twelve_samples_witness :
    calculateMetrics exampleRuntime (.array (windowArray twelveSamples)) = .ok ⟨0, "normal"⟩ :=
  (calculateMetrics_twelve_samples exampleRuntime twelveSamples 2 8 200
    (by decide!) (by decide!) (by decide!) (by decide!) (by decide!)).2.1

/-- C3: for every window of at least 10 samples whose peak candidates are
`k ≥ 2` crests, each more than 50 indices and exactly `P > 0` milliseconds
after the previous one, the scan accepts all `k` crests and `calculateMetrics`
returns bpm `round(60000 / P)`. -/
theorem calculateMetrics_evenly_spaced_crests (rt : Runtime) (w : List Sample) (P : Int)
    (hP : 0 < P) (hlen : 10 ≤ w.length) (hk : 2 ≤ (candidates rt w).length)
    (hgap : List.Chain' farApart (candidates rt w))
    (htime : List.Chain' (stepsBy rt w P) (candidates rt w)) :
    findMax rt (windowArray w) = .ok (maxOf rt w) ∧
    detectPeaks rt (windowArray w) (maxOf rt w).mul07
      = .ok ((candidates rt w).map (peakAt w)) ∧
    calculateMetrics rt (.array (windowArray w))
      = .ok ⟨roundHalfUp (60000 / (P : ℚ)), statusOf (roundHalfUp (60000 / (P : ℚ)))⟩ ∧
    calculateMetrics rt (.mapping (windowArray w))
      = .ok ⟨roundHalfUp (60000 / (P : ℚ)), statusOf (roundHalfUp (60000 / (P : ℚ)))⟩ := by
  have hall := acceptedPeaks_all rt w hgap
  have hbpm := computeBpm_evenly rt w P hP (candidates rt w) hk htime
  refine ⟨findMax_window rt w, ?_, ?_, ?_⟩
  · rw [detectPeaks_window, ← hall]
    rfl
  · rw [calculateMetrics_array rt w hlen, hall, hbpm]
  · rw [calculateMetrics_mapping rt w, hall, hbpm]

theorem candidates_twoCrests : candidates exampleRuntime twoCrests = [1, 53] := by decide!

/-- C3 at the window of 55 samples with crests at indices 1 and 53, 208 ms
apart: bpm is `round(60000 / 208) = 288`. -/
theorem calculateMetrics_evenly_spaced_crests_witness :
    calculateMetrics exampleRuntime (.array (windowArray twoCrests))
      = .ok ⟨roundHalfUp (60000 / ((208 : Int) : ℚ)), statusOf (roundHalfUp (60000 / ((208 : Int) : ℚ)))⟩ ∧
    roundHalfUp (60000 / ((208 : Int) : ℚ)) = 288 :=
  ⟨(calculateMetrics_evenly_spaced_crests exampleRuntime twoCrests 208 (by decide) (by decide!)
      (by rw [candidates_twoCrests]; decide)
      (by rw [candidates_twoCrests]; simp [farApart])
      (by
        rw [candidates_twoCrests]
        exact List.chain'_pair.mpr ⟨4, by decide!, by decide!⟩)).2.2.1,
    by decide!⟩

theorem candidates_closeCrests : candidates exampleRuntime closeCrests = [1, 27, 53] := by
  decide!

/-- C4, refuted as stated: in the window `closeCrests` consecutive peak
candidates are 26 indices apart, yet the scan accepts two peaks (indices 1
and 53, which are 52 apart) and `calculateMetrics` returns bpm 288 with
status `tachycardia`. -/
theorem closeCrests_two_peaks_accepted :
    10 ≤ closeCrests.length ∧
    candidates exampleRuntime closeCrests = [1, 27, 53] ∧
    List.Chain' (fun a b => b - a < 50) (candidates exampleRuntime closeCrests) ∧
    (detectPeaks exampleRuntime (windowArray closeCrests)
        (maxOf exampleRuntime closeCrests).mul07).map (List.map Peak.index) = .ok [1, 53] ∧
    calculateMetrics exampleRuntime (.array (windowArray closeCrests))
      = .ok ⟨288, "tachycardia"⟩ := by
  refine ⟨by decide!, candidates_closeCrests, ?_, by decide!, by decide!⟩
  rw [candidates_closeCrests]
  simp

/-- C4, amended: for every window of at least 10 samples in which any two
peak candidates are at most 50 indices apart, the scan accepts at most one
peak and `calculateMetrics` returns bpm 0 with status `normal`. -/
theorem calculateMetrics_close_candidates (rt : Runtime) (w : List Sample)
    (hlen : 10 ≤ w.length)
    (hclose : ∀ i ∈ candidates rt w, ∀ j ∈ candidates rt w, j - i ≤ 50) :
    (∃ peaks, detectPeaks rt (windowArray w) (maxOf rt w).mul07 = .ok peaks ∧
      peaks.length ≤ 1) ∧
    calculateMetrics rt (.array (windowArray w)) = .ok ⟨0, "normal"⟩ ∧
    calculateMetrics rt (.mapping (windowArray w)) = .ok ⟨0, "normal"⟩ := by
  have hone := acceptedPeaks_close rt w hclose
  have hz := computeBpm_of_length_le_one rt _ hone
  refine ⟨⟨_, detectPeaks_window rt w _, hone⟩, ?_, ?_⟩
  · rw [calculateMetrics_array rt w hlen, hz]
    rfl
  · rw [calculateMetrics_mapping rt w, hz]
    rfl

theorem candidates_nearCrests : candidates exampleRuntime nearCrests = [10, 30, 60] := by
  decide!

/-- C4, amended, at a window of 70 samples whose three crests span exactly 50
indices. -/
theorem calculateMetrics_close_candidates_witness :
    candidates exampleRuntime nearCrests = [10, 30, 60] ∧
    calculateMetrics exampleRuntime (.array (windowArray nearCrests)) = .ok ⟨0, "normal"⟩ :=
  ⟨candidates_nearCrests,
    (calculateMetrics_close_candidates exampleRuntime nearCrests (by decide!)
      (by rw [candidates_nearCrests]; decide)).2.1⟩

theorem computeBpm_invalid_time (rt : Runtime) (peaks : List Peak)
    (hbad : (∀ p ∈ peaks.head?, ∀ t, rt.dateGetTime p.time ≠ .ok (some t)) ∨
      (∀ p ∈ peaks.getLast?, ∀ t, rt.dateGetTime p.time ≠ .ok (some t))) :
    computeBpm rt peaks = 0 := by
  unfold computeBpm
  split
  · split
    · rename_i first last hfirst hlast
      split
      · rename_i firstPeak lastPeak h1 h2
        exfalso
        rcases hbad with h | h
        · exact h first hfirst firstPeak h1
        · exact h last hlast lastPeak h2
      · rfl
    · rfl
  · rfl

/-- C8: for every window of at least 10 samples in which at least two peaks
are accepted and the timestamp of the first or of the last accepted peak does
not parse to a valid instant (the conversion throws or gives `NaN`),
`calculateMetrics` does not fail: it returns bpm 0 and status `normal`. -/
theorem calculateMetrics_invalid_peak_time (rt : Runtime) (w : List Sample) (peaks : List Peak)
    (hlen : 10 ≤ w.length)
    (hpeaks : detectPeaks rt (windowArray w) (maxOf rt w).mul07 = .ok peaks)
    (_hk : 2 ≤ peaks.length)
    (hbad : (∀ p ∈ peaks.head?, ∀ t, rt.dateGetTime p.time ≠ .ok (some t)) ∨
      (∀ p ∈ peaks.getLast?, ∀ t, rt.dateGetTime p.time ≠ .ok (some t))) :
    calculateMetrics rt (.array (windowArray w)) = .ok ⟨0, "normal"⟩ ∧
    calculateMetrics rt (.mapping (windowArray w)) = .ok ⟨0, "normal"⟩ := by
  have heq : acceptedPeaks rt w = peaks := by
    have h := detectPeaks_window rt w (maxOf rt w).mul07
    rw [hpeaks] at h
    injection h with h
    exact h.symm
  have hz : computeBpm rt (acceptedPeaks rt w) = 0 := by
    rw [heq]
    exact computeBpm_invalid_time rt peaks hbad
  constructor
  · rw [calculateMetrics_array rt w hlen, hz]
    rfl
  · rw [calculateMetrics_mapping rt w, hz]
    rfl

theorem candidates_twoCrestsBadTime :
    candidates exampleRuntime twoCrestsBadTime = [1, 53] := by decide!

/-- C8 at the window of 55 samples whose two accepted peaks are at indices 1
and 53, the first with the timestamp `not-a-date`. -/
theorem calculateMetrics_invalid_peak_time_witness :
    (sampleAt twoCrestsBadTime 1).timestamp = .string "not-a-date" ∧
    calculateMetrics exampleRuntime (.array (windowArray twoCrestsBadTime))
      = .ok ⟨0, "normal"⟩ :=
  ⟨rfl,
    (calculateMetrics_invalid_peak_time exampleRuntime twoCrestsBadTime
      [peakAt twoCrestsBadTime 1, peakAt twoCrestsBadTime 53] (by decide!)
      (by
        rw [detectPeaks_window]
        have h := acceptedPeaks_all exampleRuntime twoCrestsBadTime
          (by rw [candidates_twoCrestsBadTime]; simp [farApart])
        rw [candidates_twoCrestsBadTime] at h
        exact congrArg Except.ok h)
      (by decide)
      (Or.inl (by
        intro p hp t
        simp only [List.head?_cons, Option.mem_def, Option.some.injEq] at hp
        have hnone :
            exampleRuntime.dateGetTime (peakAt twoCrestsBadTime 1).time = .ok none := by
          decide!
        rw [← hp, hnone]
        simp))).1⟩

/-! ## Validation (C7) -/

theorem firstPointInvalid_missing (p : JsValue) (rest : List JsValue)
    (hp : p.prop "timestamp" ≠ .error .typeError)
    (h : p.prop "timestamp" = .ok .undefined ∨ p.prop "ecg_value" = .ok .undefined) :
    firstPointInvalid (p :: rest) = .ok true := by
  unfold firstPointInvalid
  simp only [List.getD_cons_zero]
  rcases hts : p.prop "timestamp" with e | ts
  · cases e
    exact absurd hts hp
  · by_cases htr : ts.truthy = true
    · have hev : p.prop "ecg_value" = .ok .undefined := by
        rcases h with h | h
        · rw [hts] at h
          injection h with h
          rw [h] at htr
          exact absurd htr (by decide)
        · exact h
      simp only [bind, Except.bind, htr, hev]
      rfl
    · simp only [bind, Except.bind, htr]
      rfl

/-- A POST whose body normalises to a non-empty sequence with a first element
other than `null` or `undefined` that lacks `timestamp` or `ecg_value` is
answered with status 400 and the invalid-format message, and leaves both
records of the database as they were. -/
theorem submitEcgData_rejects_missing_fields (rt : Runtime) (store : Store) (data p : JsValue)
    (rest : List JsValue) (hpts : pointsOf data = p :: rest)
    (hp : p.prop "timestamp" ≠ .error .typeError)
    (h : p.prop "timestamp" = .ok .undefined ∨ p.prop "ecg_value" = .ok .undefined) :
    submitEcgData rt store ⟨"POST", data⟩ = (invalidFormat, store) := by
  have hinv := firstPointInvalid_missing p rest hp h
  simp [submitEcgData, hpts, hinv, invalidFormat]

/-- The body `{}` is rejected with status 400 and the invalid-format message,
and the database is left as it was. -/
theorem submitEcgData_rejects_empty_object (rt : Runtime) (store : Store) :
    submitEcgData rt store ⟨"POST", .object []⟩ = (invalidFormat, store) :=
  submitEcgData_rejects_missing_fields rt store (.object []) (.object []) [] rfl
    (by simp [JsValue.prop]) (Or.inl rfl)

/-- C7, at the failing input: the body `[null]` normalises to a one-element
sequence whose first element has no `timestamp`; reading `points[0].timestamp`
throws, and the handler answers with status 500, not with the 400 of an
invalid format. The database is left as it was. -/
theorem submitEcgData_null_first_point (rt : Runtime) (store : Store) :
    pointsOf (.array [.null]) = [.null] ∧
    submitEcgData rt store ⟨"POST", .array [.null]⟩ = (internalError, store) ∧
    internalError.status = 500 ∧
    (submitEcgData rt store ⟨"POST", .array [.null]⟩).1 ≠ invalidFormat := by
  have h : submitEcgData rt store ⟨"POST", .array [.null]⟩ = (internalError, store) := by
    simp [submitEcgData, pointsOf, firstPointInvalid, JsValue.prop, bind, Except.bind]
  refine ⟨rfl, h, rfl, ?_⟩
  rw [h]
  show internalError ≠ invalidFormat
  decide


/-! ## Concurrent appends (C9) -/

theorem transactionUpdate_small (points : List JsValue) (data : WindowData)
    (h : (currentArray data).length + points.length ≤ 300) :
    transactionUpdate points data = currentArray data ++ points := by
  unfold transactionUpdate
  have : ¬ (currentArray data ++ points).length > 300 := by
    rw [List.length_append]
    omega
  simp only [this, if_false]

/-- The states that two calls can reach from an absent record. -/
theorem interleaving_states (b1 b2 : List JsValue) (s : Pending)
    (h : Interleaving ⟨.absent, [b1, b2]⟩ s) :
    s = ⟨.absent, [b1, b2]⟩ ∨
    s = ⟨.array (transactionUpdate b1 .absent), [b2]⟩ ∨
    s = ⟨.array (transactionUpdate b2 .absent), [b1]⟩ ∨
    s = ⟨.array (transactionUpdate b2 (.array (transactionUpdate b1 .absent))), []⟩ ∨
    s = ⟨.array (transactionUpdate b1 (.array (transactionUpdate b2 .absent))), []⟩ := by
  unfold Interleaving at h
  induction h with
  | refl => exact Or.inl rfl
  | tail _ hstep ih =>
    rcases ih with h | h | h | h | h
    · rw [h] at hstep
      cases hstep with
      | step _ _ i hi =>
        have : i = 0 ∨ i = 1 := by
          simp only [List.length_cons, List.length_nil] at hi
          omega
        rcases this with rfl | rfl
        · exact Or.inr (Or.inl rfl)
        · exact Or.inr (Or.inr (Or.inl rfl))
    · rw [h] at hstep
      cases hstep with
      | step _ _ i hi =>
        have : i = 0 := by
          simp only [List.length_cons, List.length_nil] at hi
          omega
        subst this
        exact Or.inr (Or.inr (Or.inr (Or.inl rfl)))
    · rw [h] at hstep
      cases hstep with
      | step _ _ i hi =>
        have : i = 0 := by
          simp only [List.length_cons, List.length_nil] at hi
          omega
        subst this
        exact Or.inr (Or.inr (Or.inr (Or.inr rfl)))
    · rw [h] at hstep
      cases hstep with
      | step _ _ i hi => simp at hi
    · rw [h] at hstep
      cases hstep with
      | step _ _ i hi => simp at hi

/-- C9: two concurrent append calls with batches of 5 samples each, issued
against an absent (empty) window, run to completion, and whatever the order
in which the store commits them the final window has length 10 and holds
exactly the samples of the two batches, each as often as the batches do, so
exactly once when the 10 samples are distinct; it is one batch followed by
the other. -/
theorem concurrent_appends_lose_nothing (b1 b2 : List JsValue)
    (h1 : b1.length = 5) (h2 : b2.length = 5) :
    (∃ final, Interleaving ⟨.absent, [b1, b2]⟩ final ∧ final.waiting = []) ∧
    ∀ final, Interleaving ⟨.absent, [b1, b2]⟩ final → final.waiting = [] →
      ∃ window, final.record = .array window ∧ window.length = 10 ∧
        window.Perm (b1 ++ b2) ∧ ((b1 ++ b2).Nodup → window.Nodup) ∧
        (window = b1 ++ b2 ∨ window = b2 ++ b1) := by
  have e1 : transactionUpdate b1 .absent = b1 := by
    rw [transactionUpdate_small _ _ (by simp [currentArray, h1])]
    rfl
  have e2 : transactionUpdate b2 .absent = b2 := by
    rw [transactionUpdate_small _ _ (by simp [currentArray, h2])]
    rfl
  have e12 : transactionUpdate b2 (.array b1) = b1 ++ b2 := by
    rw [transactionUpdate_small _ _ (by simp [currentArray, h1, h2])]
    rfl
  have e21 : transactionUpdate b1 (.array b2) = b2 ++ b1 := by
    rw [transactionUpdate_small _ _ (by simp [currentArray, h1, h2])]
    rfl
  constructor
  · refine ⟨⟨.array (transactionUpdate b2 (.array (transactionUpdate b1 .absent))), []⟩, ?_, rfl⟩
    exact Relation.ReflTransGen.tail
      (Relation.ReflTransGen.single (Commit.step .absent [b1, b2] 0 (by simp)))
      (Commit.step (.array (transactionUpdate b1 .absent)) [b2] 0 (by simp))
  · intro final hrun hdone
    rcases interleaving_states b1 b2 final hrun with h | h | h | h | h
    · rw [h] at hdone
      simp at hdone
    · rw [h] at hdone
      simp at hdone
    · rw [h] at hdone
      simp at hdone
    · rw [h, e1, e12]
      refine ⟨b1 ++ b2, rfl, by simp [h1, h2], List.Perm.refl _, fun hn => hn, Or.inl rfl⟩
    · rw [h, e2, e21]
      refine ⟨b2 ++ b1, rfl, by simp [h1, h2], List.perm_append_comm, ?_, Or.inr rfl⟩
      intro hn
      exact (List.perm_append_comm.nodup_iff).mpr hn

/-- C9 at two batches of five samples, the second call committing first. -/
theorem concurrent_appends_lose_nothing_witness :
    ∃ window,
      (WindowData.array (transactionUpdate (exampleBatch 0)
        (.array (transactionUpdate (exampleBatch 5) .absent)))) = .array window ∧
      window.length = 10 ∧ window.Perm (exampleBatch 0 ++ exampleBatch 5) :=
  have h := (concurrent_appends_lose_nothing (exampleBatch 0) (exampleBatch 5) rfl rfl).2
    ⟨.array (transactionUpdate (exampleBatch 0)
      (.array (transactionUpdate (exampleBatch 5) .absent))), []⟩
    (Relation.ReflTransGen.tail
      (Relation.ReflTransGen.single
        (Commit.step .absent [exampleBatch 0, exampleBatch 5] 1 (by simp)))
      (Commit.step (.array (transactionUpdate (exampleBatch 5) .absent)) [exampleBatch 0] 0
        (by simp)))
    rfl
  let ⟨window, hw, hlen, hperm, _⟩ := h
  ⟨window, hw, hlen, hperm⟩

end EcgFront
